import Mathlib

/-!
Verification development for the robust geometric predicates header
(`predicates.h`): Shewchuk-style adaptive-precision sign predicates
(orient2d, orient3d, incircle, insphere) over IEEE-754 binary64.

Model: a binary64 value is embedded as a dyadic rational (a `ℚ`).
Arithmetic is exact rational arithmetic followed by `roundQ`, an
executable round-to-nearest, ties-to-even at 53 significand bits with
unbounded exponent (no overflow/underflow; the claims only concern
finite inputs, and all concrete inputs used below stay far away from
the binary64 exponent range limits, where this model agrees bit-for-bit
with hardware doubles).  `+0`/`-0` are both modelled by `0`; as value
semantics this is faithful (see the comment at `o2dEarly` for the one
place where `std::signbit` is used on a possibly-negative zero).

The product tail `MultTail` is modelled by the `std::fma` branch of the
source (`use_fma<T>::value = true`, i.e. the build with `FP_FAST_FMA`
defined); per the source's own design the Dekker-split branch computes
the same value on binary64 inputs, so this choice is observationally
neutral.

All arithmetic is routed through `Rat.divInt`-based helpers (`qadd`,
`qmul`, ...) rather than the standard `+`/`*` instances so that every
definition evaluates by kernel reduction (`decide`); bridge lemmas
relate the helpers to the standard operations.
-/

set_option maxRecDepth 1000000
set_option maxHeartbeats 10000000
set_option exponentiation.threshold 10000

/-- Exact rational constructor `n / d` in lowest terms. -/
def qmk (n d : ℤ) : ℚ := Rat.divInt n d

/-- Exact rational addition (kernel-reducible form). -/
def qadd (a b : ℚ) : ℚ := qmk (a.num * b.den + b.num * a.den) (a.den * b.den)

/-- Exact rational subtraction (kernel-reducible form). -/
def qsub (a b : ℚ) : ℚ := qmk (a.num * b.den - b.num * a.den) (a.den * b.den)

/-- Exact rational multiplication (kernel-reducible form). -/
def qmul (a b : ℚ) : ℚ := qmk (a.num * b.num) (a.den * b.den)

/-- Exact rational negation (kernel-reducible form). -/
def qneg (a : ℚ) : ℚ := qmk (-a.num) a.den

/-- Cast of a natural number (kernel-reducible form). -/
def qofN (n : ℕ) : ℚ := qmk (Int.ofNat n) 1

/-- Exact absolute value, models `std::abs` on binary64 (exact). -/
def qabs (a : ℚ) : ℚ := if a < 0 then qneg a else a

/-- Floor logarithm base 2 with explicit structural fuel, so that the
kernel can evaluate it on numerals. -/
def log2Fuel : ℕ → ℕ → ℕ
  | 0, _ => 0
  | fuel+1, n => if n < 2 then 0 else log2Fuel fuel (n / 2) + 1

/-- `natLog2 n = ⌊log₂ n⌋` for `n ≥ 1` (and `0` at `0`). -/
def natLog2 (n : ℕ) : ℕ := log2Fuel n n

/-- `2 ^ k` as a rational, for an integer exponent `k`. -/
def pow2Z (k : ℤ) : ℚ := if 0 ≤ k then qmk ((2 ^ k.toNat : ℕ) : ℤ) 1 else qmk 1 ((2 ^ (-k).toNat : ℕ) : ℤ)

/-- `⌊log₂ |q|⌋` for `q ≠ 0`: the binade exponent of `q`. -/
def expoQ (q : ℚ) : ℤ :=
  let g : ℤ := (natLog2 q.num.natAbs : ℤ) - (natLog2 q.den : ℤ)
  if pow2Z g ≤ qabs q then g else g - 1

/-- Floor of a nonnegative rational, as a natural number. -/
def qfloorN (y : ℚ) : ℕ := y.num.toNat / y.den

/-- The significand of `q` scaled into `[2^52, 2^53)`:
`|q| · 2^(52 - expoQ q)`. -/
def roundY (q : ℚ) : ℚ := qmul (qabs q) (pow2Z (52 - expoQ q))

/-- Truncated 53-bit significand of `q`. -/
def roundN (q : ℚ) : ℕ := qfloorN (roundY q)

/-- Rounded (nearest, ties to even) 53-bit significand of `q`. -/
def roundM (q : ℚ) : ℕ :=
  let r := qsub (roundY q) (qofN (roundN q))
  if r < qmk 1 2 then roundN q
  else if qmk 1 2 < r then roundN q + 1
  else if roundN q % 2 = 0 then roundN q else roundN q + 1

/-- Round to nearest, ties to even, at 53 significand bits, unbounded
exponent: the rounding of IEEE-754 binary64 away from overflow and
underflow.  This is the `fl(·)` operation applied by the hardware after
every `+`, `-`, `*` in `predicates.h`. -/
def roundQ (q : ℚ) : ℚ :=
  if q = 0 then 0
  else if q < 0 then qneg (qmul (qofN (roundM q)) (pow2Z (expoQ q - 52)))
  else qmul (qofN (roundM q)) (pow2Z (expoQ q - 52))

/-- Rounded binary64 addition `a + b`. -/
def fadd (a b : ℚ) : ℚ := roundQ (qadd a b)

/-- Rounded binary64 subtraction `a - b`. -/
def fsub (a b : ℚ) : ℚ := roundQ (qsub a b)

/-- Rounded binary64 multiplication `a * b`. -/
def fmul (a b : ℚ) : ℚ := roundQ (qmul a b)

/-- `ExpansionBase::PlusTail`: roundoff error of `x = a + b`
(Knuth's TwoSum correction sequence, as written in the source). -/
def plusTail (a b x : ℚ) : ℚ :=
  let bVirtual := fsub x a
  let aVirtual := fsub x bVirtual
  let bRoundoff := fsub b bVirtual
  let aRoundoff := fsub a aVirtual
  fadd aRoundoff bRoundoff

/-- `ExpansionBase::FastPlusTail`: roundoff error of `x = a + b` when
`|a| ≥ |b|` (Dekker's FastTwoSum correction). -/
def fastPlusTail (a b x : ℚ) : ℚ := fsub b (fsub x a)

/-- `ExpansionBase::MinusTail`: roundoff error of `x = a - b`. -/
def minusTail (a b x : ℚ) : ℚ :=
  let bVirtual := fsub a x
  let aVirtual := fadd x bVirtual
  let bRoundoff := fsub bVirtual b
  let aRoundoff := fsub a aVirtual
  fadd aRoundoff bRoundoff

/-- `ExpansionBase::MultTail`: roundoff error of `p = a * b`, fma build:
`std::fma(a, b, -p)`, which on binary64 is the rounding of the exact
value `a*b - p`. -/
def multTail (a b p : ℚ) : ℚ := roundQ (qsub (qmul a b) p)

/-!  Expansions.  An `Expansion<T, N>` value with `m_size = k` is modelled
by the list of its `k` stored components in storage order (increasing
magnitude); the static capacity `N` is modelled by the component-count
bounds proved below (claim C10). -/

/-- `ExpansionBase::MakeExpansion`: combine result and roundoff error
into an expansion, suppressing zero components. -/
def makeExpansion (value tail : ℚ) : List ℚ :=
  (if tail = 0 then [] else [tail]) ++ (if value = 0 then [] else [value])

/-- `ExpansionBase::Plus`: the ≤2-component expansion of `a + b`. -/
def plusE (a b : ℚ) : List ℚ :=
  let x := fadd a b
  makeExpansion x (plusTail a b x)

/-- `ExpansionBase::Mult`: the ≤2-component expansion of `a * b`. -/
def multE (a b : ℚ) : List ℚ :=
  let x := fmul a b
  makeExpansion x (multTail a b x)

/-- `std::merge` of two expansions by increasing absolute magnitude
(take from the second range only when strictly smaller), with explicit
structural fuel for kernel reducibility. -/
def mergeFuel : ℕ → List ℚ → List ℚ → List ℚ
  | 0, e, f => e ++ f
  | fuel+1, e, f =>
    match e, f with
    | [], f => f
    | e, [] => e
    | a :: e, b :: f =>
      if qabs b < qabs a then b :: mergeFuel fuel (a :: e) f
      else a :: mergeFuel fuel e (b :: f)

/-- Merge two expansions by increasing absolute magnitude. -/
def mergeAbs (e f : List ℚ) : List ℚ := mergeFuel (e.length + f.length) e f

/-- One step of the distillation sweep of `ExpansionBase::ExpansionSum`:
absorb the next merged component into the running sum `Q`, emitting the
roundoff `hh` when nonzero. -/
def distillStep (acc : List ℚ × ℚ) (g : ℚ) : List ℚ × ℚ :=
  let qnew := fadd acc.2 g
  let hh := plusTail acc.2 g qnew
  (if hh = 0 then acc.1 else acc.1 ++ [hh], qnew)

/-- The distillation sweep of `ExpansionBase::ExpansionSum` over the
merged component list. -/
def distill (h : List ℚ) : List ℚ :=
  match h with
  | [] => []
  | [x] => [x]
  | h0 :: h1 :: rest =>
    let q1 := fadd h1 h0
    let hh0 := fastPlusTail h1 h0 q1
    let p := rest.foldl distillStep (if hh0 = 0 then [] else [hh0], q1)
    if p.2 = 0 then p.1 else p.1 ++ [p.2]

/-- `ExpansionBase::ExpansionSum` / `Expansion::operator+`: merge the two
component lists by magnitude, then distill.  (In the source the merge
writes into the output buffer `h` and the sweep overwrites `h[hIndex]`
with `hIndex < g` always, so the list model is faithful; the `m == 0` /
`n == 0` early returns reproduce lines 131-132.) -/
def expansionSum (e f : List ℚ) : List ℚ :=
  if f = [] then e
  else if e = [] then f
  else distill (mergeAbs e f)

/-- One step of `ExpansionBase::ScaleExpansion`'s loop body. -/
def scaleStep (b : ℚ) (acc : List ℚ × ℚ) (ei : ℚ) : List ℚ × ℚ :=
  let ti := fmul ei b
  let tti := multTail ei b ti
  let qi := fadd acc.2 tti
  let hh1 := plusTail acc.2 tti qi
  let l1 := if hh1 = 0 then acc.1 else acc.1 ++ [hh1]
  let q2 := fadd ti qi
  let hh2 := fastPlusTail ti qi q2
  (if hh2 = 0 then l1 else l1 ++ [hh2], q2)

/-- `ExpansionBase::ScaleExpansion` / `Expansion::operator*`: multiply an
expansion by a binary64 scalar.  (The source precomputes `Split(b)`; in
the fma build that value is unused, so it is omitted here.) -/
def scaleExpansion (e : List ℚ) (b : ℚ) : List ℚ :=
  match e with
  | [] => []
  | e0 :: rest =>
    if b = 0 then []
    else
      let q := fmul e0 b
      let hh := multTail e0 b q
      let p := rest.foldl (scaleStep b) (if hh = 0 then [] else [hh], q)
      if p.2 = 0 then p.1 else p.1 ++ [p.2]

/-- `Expansion::negate` / unary `operator-`: componentwise negation. -/
def negE (e : List ℚ) : List ℚ := e.map qneg

/-- `Expansion::operator-`: subtraction via negation. -/
def ediff (e f : List ℚ) : List ℚ := expansionSum e (negE f)

/-- `Expansion::estimate`: `std::accumulate` over the components with
binary64 additions starting from `T(0)`. -/
def estimate (e : List ℚ) : ℚ := e.foldl fadd 0

/-- `Expansion::mostSignificant`: the last stored component, `0` when
empty. -/
def mostSignificant (e : List ℚ) : ℚ := (e.getLast?).getD 0

/-- `ExpansionBase::TwoTwoDiff`: the ≤4-component expansion of the 2×2
determinant `ax*by - ay*bx` (unrolled two-product difference). -/
def twoTwoDiff (ax byy ay bxx : ℚ) : List ℚ :=
  let axby1 := fmul ax byy
  let axby0 := multTail ax byy axby1
  let bxay1 := fmul bxx ay
  let bxay0 := multTail bxx ay bxay1
  let i0 := fsub axby0 bxay0
  let x0 := minusTail axby0 bxay0 i0
  let j := fadd axby1 i0
  let r0 := plusTail axby1 i0 j
  let i1 := fsub r0 bxay1
  let x1 := minusTail r0 bxay1 i1
  let x3 := fadd j i1
  let x2 := plusTail j i1 x3
  (if x0 = 0 then [] else [x0]) ++ (if x1 = 0 then [] else [x1]) ++
    (if x2 = 0 then [] else [x2]) ++ (if x3 = 0 then [] else [x3])

/-- `ExpansionBase::TwoTwoDiffZeroCheck`: `TwoTwoDiff` with zero tests on
`ax` and `ay`, falling back to a single product's expansion. -/
def twoTwoDiffZeroCheck (ax byy ay bxx : ℚ) : List ℚ :=
  if ax = 0 ∧ ay = 0 then []
  else if ax = 0 then multE ay bxx
  else if ay = 0 then multE ax byy
  else twoTwoDiff ax byy ay bxx

/-- `ExpansionBase::ThreeProd`: `(a * b) * c` as an expansion,
short-circuiting to the empty expansion when any factor is zero. -/
def threeProd (a b c : ℚ) : List ℚ :=
  if a = 0 ∨ b = 0 ∨ c = 0 then [] else scaleExpansion (multE a b) c

/-- Exact rational value represented by an expansion: the exact sum of
its components. -/
def expValue (e : List ℚ) : ℚ := e.foldl qadd 0

/-! Points: `orient2d`/`incircle` take `const T*` pointers to 2
coordinates, `orient3d`/`insphere` to 3; modelled as pairs/triples. -/

/-- A 2-D point `(p[0], p[1])`. -/
abbrev P2 := ℚ × ℚ

/-- A 3-D point `(p[0], p[1], p[2])`. -/
abbrev P3 := ℚ × ℚ × ℚ

/-- `2 ^ k` as an integer (kernel-reducible form). -/
def zpow2 (k : ℕ) : ℤ := ((2 ^ k : ℕ) : ℤ)

/-- `Constants<T>::epsilon = exp2(-digits)` for binary64: `2⁻⁵³`. -/
def epsQ : ℚ := qmk 1 (zpow2 53)

/-- `Constants<T>::resulterrbound = (3 + 8·ε)·ε` (binary64 arithmetic). -/
def resulterrbound : ℚ := fmul (fadd (qofN 3) (fmul (qofN 8) epsQ)) epsQ

/-- `Constants<T>::ccwerrboundA = (3 + 16·ε)·ε`. -/
def ccwerrboundA : ℚ := fmul (fadd (qofN 3) (fmul (qofN 16) epsQ)) epsQ

/-- `Constants<T>::ccwerrboundB = (2 + 12·ε)·ε`. -/
def ccwerrboundB : ℚ := fmul (fadd (qofN 2) (fmul (qofN 12) epsQ)) epsQ

/-- `Constants<T>::ccwerrboundC = (9 + 64·ε)·ε·ε`. -/
def ccwerrboundC : ℚ := fmul (fmul (fadd (qofN 9) (fmul (qofN 64) epsQ)) epsQ) epsQ

/-- `Constants<T>::o3derrboundA = (7 + 56·ε)·ε`. -/
def o3derrboundA : ℚ := fmul (fadd (qofN 7) (fmul (qofN 56) epsQ)) epsQ

/-- `Constants<T>::o3derrboundB = (3 + 28·ε)·ε`. -/
def o3derrboundB : ℚ := fmul (fadd (qofN 3) (fmul (qofN 28) epsQ)) epsQ

/-- `Constants<T>::o3derrboundC = (26 + 288·ε)·ε·ε`. -/
def o3derrboundC : ℚ := fmul (fmul (fadd (qofN 26) (fmul (qofN 288) epsQ)) epsQ) epsQ

/-- `Constants<T>::iccerrboundA = (10 + 96·ε)·ε`. -/
def iccerrboundA : ℚ := fmul (fadd (qofN 10) (fmul (qofN 96) epsQ)) epsQ

/-- `Constants<T>::iccerrboundB = (4 + 48·ε)·ε`. -/
def iccerrboundB : ℚ := fmul (fadd (qofN 4) (fmul (qofN 48) epsQ)) epsQ

/-- `Constants<T>::iccerrboundC = (44 + 576·ε)·ε·ε`. -/
def iccerrboundC : ℚ := fmul (fmul (fadd (qofN 44) (fmul (qofN 576) epsQ)) epsQ) epsQ

/-- `Constants<T>::isperrboundA = (16 + 224·ε)·ε`. -/
def isperrboundA : ℚ := fmul (fadd (qofN 16) (fmul (qofN 224) epsQ)) epsQ

/-- `Constants<T>::isperrboundB = (5 + 72·ε)·ε`. -/
def isperrboundB : ℚ := fmul (fadd (qofN 5) (fmul (qofN 72) epsQ)) epsQ

/-- `Constants<T>::isperrboundC = (71 + 1408·ε)·ε·ε`. -/
def isperrboundC : ℚ := fmul (fmul (fadd (qofN 71) (fmul (qofN 1408) epsQ)) epsQ) epsQ

/-! Exact predicate evaluators (`namespace predicates::exact`). -/

/-- `predicates::exact::orient2d`. -/
def exactOrient2d (pa pb pc : P2) : ℚ :=
  let aterms := twoTwoDiff pa.1 pb.2 pa.1 pc.2
  let bterms := twoTwoDiff pb.1 pc.2 pb.1 pa.2
  let cterms := twoTwoDiff pc.1 pa.2 pc.1 pb.2
  mostSignificant (expansionSum (expansionSum aterms bterms) cterms)

/-- `predicates::exact::incircle`. -/
def exactIncircle (pa pb pc pd : P2) : ℚ :=
  let ab := twoTwoDiff pa.1 pb.2 pb.1 pa.2
  let bc := twoTwoDiff pb.1 pc.2 pc.1 pb.2
  let cd := twoTwoDiff pc.1 pd.2 pd.1 pc.2
  let da := twoTwoDiff pd.1 pa.2 pa.1 pd.2
  let ac := twoTwoDiff pa.1 pc.2 pc.1 pa.2
  let bd := twoTwoDiff pb.1 pd.2 pd.1 pb.2
  let abc := ediff (expansionSum ab bc) ac
  let bcd := ediff (expansionSum bc cd) bd
  let cda := expansionSum (expansionSum cd da) ac
  let dab := expansionSum (expansionSum da ab) bd
  let adet := expansionSum (scaleExpansion (scaleExpansion bcd pa.1) pa.1)
                           (scaleExpansion (scaleExpansion bcd pa.2) pa.2)
  let bdet := expansionSum (scaleExpansion (scaleExpansion cda pb.1) (qneg pb.1))
                           (scaleExpansion (scaleExpansion cda pb.2) (qneg pb.2))
  let cdet := expansionSum (scaleExpansion (scaleExpansion dab pc.1) pc.1)
                           (scaleExpansion (scaleExpansion dab pc.2) pc.2)
  let ddet := expansionSum (scaleExpansion (scaleExpansion abc pd.1) (qneg pd.1))
                           (scaleExpansion (scaleExpansion abc pd.2) (qneg pd.2))
  mostSignificant (expansionSum (expansionSum adet bdet) (expansionSum cdet ddet))

/-- `predicates::exact::orient3d`. -/
def exactOrient3d (pa pb pc pd : P3) : ℚ :=
  let ab := twoTwoDiff pa.1 pb.2.1 pb.1 pa.2.1
  let bc := twoTwoDiff pb.1 pc.2.1 pc.1 pb.2.1
  let cd := twoTwoDiff pc.1 pd.2.1 pd.1 pc.2.1
  let da := twoTwoDiff pd.1 pa.2.1 pa.1 pd.2.1
  let ac := twoTwoDiff pa.1 pc.2.1 pc.1 pa.2.1
  let bd := twoTwoDiff pb.1 pd.2.1 pd.1 pb.2.1
  let abc := ediff (expansionSum ab bc) ac
  let bcd := ediff (expansionSum bc cd) bd
  let cda := expansionSum (expansionSum cd da) ac
  let dab := expansionSum (expansionSum da ab) bd
  let adet := scaleExpansion bcd pa.2.2
  let bdet := scaleExpansion cda (qneg pb.2.2)
  let cdet := scaleExpansion dab pc.2.2
  let ddet := scaleExpansion abc (qneg pd.2.2)
  mostSignificant (expansionSum (expansionSum adet bdet) (expansionSum cdet ddet))

/-- `predicates::exact::insphere`. -/
def exactInsphere (pa pb pc pd pe : P3) : ℚ :=
  let ab := twoTwoDiff pa.1 pb.2.1 pb.1 pa.2.1
  let bc := twoTwoDiff pb.1 pc.2.1 pc.1 pb.2.1
  let cd := twoTwoDiff pc.1 pd.2.1 pd.1 pc.2.1
  let de := twoTwoDiff pd.1 pe.2.1 pe.1 pd.2.1
  let ea := twoTwoDiff pe.1 pa.2.1 pa.1 pe.2.1
  let ac := twoTwoDiff pa.1 pc.2.1 pc.1 pa.2.1
  let bd := twoTwoDiff pb.1 pd.2.1 pd.1 pb.2.1
  let ce := twoTwoDiff pc.1 pe.2.1 pe.1 pc.2.1
  let da := twoTwoDiff pd.1 pa.2.1 pa.1 pd.2.1
  let eb := twoTwoDiff pe.1 pb.2.1 pb.1 pe.2.1
  let abc := expansionSum (expansionSum (scaleExpansion bc pa.2.2) (scaleExpansion ac (qneg pb.2.2))) (scaleExpansion ab pc.2.2)
  let bcd := expansionSum (expansionSum (scaleExpansion cd pb.2.2) (scaleExpansion bd (qneg pc.2.2))) (scaleExpansion bc pd.2.2)
  let cde := expansionSum (expansionSum (scaleExpansion de pc.2.2) (scaleExpansion ce (qneg pd.2.2))) (scaleExpansion cd pe.2.2)
  let dea := expansionSum (expansionSum (scaleExpansion ea pd.2.2) (scaleExpansion da (qneg pe.2.2))) (scaleExpansion de pa.2.2)
  let eab := expansionSum (expansionSum (scaleExpansion ab pe.2.2) (scaleExpansion eb (qneg pa.2.2))) (scaleExpansion ea pb.2.2)
  let abd := expansionSum (expansionSum (scaleExpansion bd pa.2.2) (scaleExpansion da pb.2.2)) (scaleExpansion ab pd.2.2)
  let bce := expansionSum (expansionSum (scaleExpansion ce pb.2.2) (scaleExpansion eb pc.2.2)) (scaleExpansion bc pe.2.2)
  let cda := expansionSum (expansionSum (scaleExpansion da pc.2.2) (scaleExpansion ac pd.2.2)) (scaleExpansion cd pa.2.2)
  let deb := expansionSum (expansionSum (scaleExpansion eb pd.2.2) (scaleExpansion bd pe.2.2)) (scaleExpansion de pb.2.2)
  let eac := expansionSum (expansionSum (scaleExpansion ac pe.2.2) (scaleExpansion ce pa.2.2)) (scaleExpansion ea pc.2.2)
  let bcde := ediff (expansionSum cde bce) (expansionSum deb bcd)
  let cdea := ediff (expansionSum dea cda) (expansionSum eac cde)
  let deab := ediff (expansionSum eab deb) (expansionSum abd dea)
  let eabc := ediff (expansionSum abc eac) (expansionSum bce eab)
  let abcd := ediff (expansionSum bcd abd) (expansionSum cda abc)
  let adet := expansionSum (expansionSum (scaleExpansion (scaleExpansion bcde pa.1) pa.1) (scaleExpansion (scaleExpansion bcde pa.2.1) pa.2.1)) (scaleExpansion (scaleExpansion bcde pa.2.2) pa.2.2)
  let bdet := expansionSum (expansionSum (scaleExpansion (scaleExpansion cdea pb.1) pb.1) (scaleExpansion (scaleExpansion cdea pb.2.1) pb.2.1)) (scaleExpansion (scaleExpansion cdea pb.2.2) pb.2.2)
  let cdet := expansionSum (expansionSum (scaleExpansion (scaleExpansion deab pc.1) pc.1) (scaleExpansion (scaleExpansion deab pc.2.1) pc.2.1)) (scaleExpansion (scaleExpansion deab pc.2.2) pc.2.2)
  let ddet := expansionSum (expansionSum (scaleExpansion (scaleExpansion eabc pd.1) pd.1) (scaleExpansion (scaleExpansion eabc pd.2.1) pd.2.1)) (scaleExpansion (scaleExpansion eabc pd.2.2) pd.2.2)
  let edet := expansionSum (expansionSum (scaleExpansion (scaleExpansion abcd pe.1) pe.1) (scaleExpansion (scaleExpansion abcd pe.2.1) pe.2.1)) (scaleExpansion (scaleExpansion abcd pe.2.2) pe.2.2)
  mostSignificant (expansionSum (expansionSum adet bdet) (expansionSum (expansionSum cdet ddet) edet))

/-! Adaptive predicate evaluators (`namespace predicates::adaptive`).
Each stage value and each stage test is a named definition so that the
escalation structure can be referred to in theorem statements; the
top-level evaluator chains them with the source's control flow. -/

/-- `std::signbit` on a binary64 value.  (`signbitQ 0 = false`; the
source can also see `signbit(-0.0) = true`, but as analysed at
`o2dEarly` this never changes the returned value.) -/
def signbitQ (q : ℚ) : Bool := decide (q < 0)

/-- adaptive::orient2d `acx = pa[0] - pc[0]`. -/
def o2acx (pa pc : P2) : ℚ := fsub pa.1 pc.1

/-- adaptive::orient2d `bcx = pb[0] - pc[0]`. -/
def o2bcx (pb pc : P2) : ℚ := fsub pb.1 pc.1

/-- adaptive::orient2d `acy = pa[1] - pc[1]`. -/
def o2acy (pa pc : P2) : ℚ := fsub pa.2 pc.2

/-- adaptive::orient2d `bcy = pb[1] - pc[1]`. -/
def o2bcy (pb pc : P2) : ℚ := fsub pb.2 pc.2

/-- adaptive::orient2d `detleft = acx * bcy`. -/
def o2detleft (pa pb pc : P2) : ℚ := fmul (o2acx pa pc) (o2bcy pb pc)

/-- adaptive::orient2d `detright = acy * bcx`. -/
def o2detright (pa pb pc : P2) : ℚ := fmul (o2acy pa pc) (o2bcx pb pc)

/-- adaptive::orient2d fast determinant `det = detleft - detright`. -/
def o2detFast (pa pb pc : P2) : ℚ := fsub (o2detleft pa pb pc) (o2detright pa pb pc)

/-- adaptive::orient2d early return condition, lines 400-401: the
sign bits of `detleft` and `detright` differ, or either is zero.  (With
`±0` conflated to `0` the two source lines fire on exactly this set of
inputs and both return the same `det`.) -/
@[reducible] def o2dEarly (pa pb pc : P2) : Prop :=
  signbitQ (o2detleft pa pb pc) ≠ signbitQ (o2detright pa pb pc) ∨
    o2detleft pa pb pc = 0 ∨ o2detright pa pb pc = 0

/-- adaptive::orient2d `detsum = abs(detleft + detright)`. -/
def o2detsum (pa pb pc : P2) : ℚ := qabs (fadd (o2detleft pa pb pc) (o2detright pa pb pc))

/-- adaptive::orient2d stage-A certification test
`abs(det) >= abs(ccwerrboundA * detsum)`. -/
@[reducible] def o2dTestA (pa pb pc : P2) : Prop :=
  qabs (o2detFast pa pb pc) ≥ qabs (fmul ccwerrboundA (o2detsum pa pb pc))

/-- adaptive::orient2d stage-B expansion `B = TwoTwoDiff(acx, bcy, acy, bcx)`. -/
def o2B (pa pb pc : P2) : List ℚ :=
  twoTwoDiff (o2acx pa pc) (o2bcy pb pc) (o2acy pa pc) (o2bcx pb pc)

/-- adaptive::orient2d stage-B estimate `det = B.estimate()`. -/
def o2detB (pa pb pc : P2) : ℚ := estimate (o2B pa pb pc)

/-- adaptive::orient2d stage-B certification test. -/
@[reducible] def o2dTestB (pa pb pc : P2) : Prop :=
  qabs (o2detB pa pb pc) ≥ qabs (fmul ccwerrboundB (o2detsum pa pb pc))

/-- adaptive::orient2d `acxtail = MinusTail(pa[0], pc[0], acx)`. -/
def o2acxtail (pa pc : P2) : ℚ := minusTail pa.1 pc.1 (o2acx pa pc)

/-- adaptive::orient2d `bcxtail = MinusTail(pb[0], pc[0], bcx)`. -/
def o2bcxtail (pb pc : P2) : ℚ := minusTail pb.1 pc.1 (o2bcx pb pc)

/-- adaptive::orient2d `acytail = MinusTail(pa[1], pc[1], acy)`. -/
def o2acytail (pa pc : P2) : ℚ := minusTail pa.2 pc.2 (o2acy pa pc)

/-- adaptive::orient2d `bcytail = MinusTail(pb[1], pc[1], bcy)`. -/
def o2bcytail (pb pc : P2) : ℚ := minusTail pb.2 pc.2 (o2bcy pb pc)

/-- adaptive::orient2d all-tails-zero early exit condition (line 416). -/
@[reducible] def o2dTailsZero (pa pb pc : P2) : Prop :=
  o2acxtail pa pc = 0 ∧ o2bcxtail pb pc = 0 ∧ o2acytail pa pc = 0 ∧ o2bcytail pb pc = 0

/-- adaptive::orient2d stage-C corrected determinant (line 419). -/
def o2detC (pa pb pc : P2) : ℚ :=
  fadd (o2detB pa pb pc)
    (fsub (fadd (fmul (o2acx pa pc) (o2bcytail pb pc)) (fmul (o2bcy pb pc) (o2acxtail pa pc)))
          (fadd (fmul (o2acy pa pc) (o2bcxtail pb pc)) (fmul (o2bcx pb pc) (o2acytail pa pc))))

/-- adaptive::orient2d stage-C error bound (line 418). -/
def o2errC (pa pb pc : P2) : ℚ :=
  fadd (fmul ccwerrboundC (o2detsum pa pb pc)) (fmul resulterrbound (qabs (o2detB pa pb pc)))

/-- adaptive::orient2d stage-C certification test. -/
@[reducible] def o2dTestC (pa pb pc : P2) : Prop :=
  qabs (o2detC pa pb pc) ≥ qabs (o2errC pa pb pc)

/-- adaptive::orient2d final-stage expansion `D` (line 422). -/
def o2D (pa pb pc : P2) : List ℚ :=
  expansionSum (expansionSum (expansionSum (o2B pa pb pc)
      (twoTwoDiff (o2acxtail pa pc) (o2bcy pb pc) (o2acytail pa pc) (o2bcx pb pc)))
      (twoTwoDiff (o2acx pa pc) (o2bcytail pb pc) (o2acy pa pc) (o2bcxtail pb pc)))
      (twoTwoDiff (o2acxtail pa pc) (o2bcytail pb pc) (o2acytail pa pc) (o2bcxtail pb pc))

/-- `predicates::adaptive::orient2d` (lines 392-424). -/
def adaptiveOrient2d (pa pb pc : P2) : ℚ :=
  if o2dEarly pa pb pc then o2detFast pa pb pc
  else if o2dTestA pa pb pc then o2detFast pa pb pc
  else if o2dTestB pa pb pc then o2detB pa pb pc
  else if o2dTailsZero pa pb pc then o2detB pa pb pc
  else if o2dTestC pa pb pc then o2detC pa pb pc
  else mostSignificant (o2D pa pb pc)

/-- The mathematically exact orient2d determinant
`(pa[0]-pc[0])·(pb[1]-pc[1]) - (pa[1]-pc[1])·(pb[0]-pc[0])` in exact
rational arithmetic (spec §4.5: sign of the 2×2 determinant of the edge
vectors `a-c` and `b-c`). -/
def orient2dRealDet (pa pb pc : P2) : ℚ :=
  qsub (qmul (qsub pa.1 pc.1) (qsub pb.2 pc.2)) (qmul (qsub pa.2 pc.2) (qsub pb.1 pc.1))

/-- adaptive::incircle `adx = pa[0] - pd[0]`. -/
def icAdx (pa pd : P2) : ℚ := fsub pa.1 pd.1

/-- adaptive::incircle `bdx = pb[0] - pd[0]`. -/
def icBdx (pb pd : P2) : ℚ := fsub pb.1 pd.1

/-- adaptive::incircle `cdx = pc[0] - pd[0]`. -/
def icCdx (pc pd : P2) : ℚ := fsub pc.1 pd.1

/-- adaptive::incircle `ady = pa[1] - pd[1]`. -/
def icAdy (pa pd : P2) : ℚ := fsub pa.2 pd.2

/-- adaptive::incircle `bdy = pb[1] - pd[1]`. -/
def icBdy (pb pd : P2) : ℚ := fsub pb.2 pd.2

/-- adaptive::incircle `cdy = pc[1] - pd[1]`. -/
def icCdy (pc pd : P2) : ℚ := fsub pc.2 pd.2

/-- adaptive::incircle `bdxcdy = bdx * cdy` (first leading partial
product of the fast stage). -/
def icBdxcdy (pb pc pd : P2) : ℚ := fmul (icBdx pb pd) (icCdy pc pd)

/-- adaptive::incircle `cdxbdy = cdx * bdy` (second leading partial
product of the fast stage). -/
def icCdxbdy (pb pc pd : P2) : ℚ := fmul (icCdx pc pd) (icBdy pb pd)

/-- adaptive::incircle fast determinant (line 442). -/
def icDetFast (pa pb pc pd : P2) : ℚ :=
  let adx := icAdx pa pd
  let bdx := icBdx pb pd
  let cdx := icCdx pc pd
  let ady := icAdy pa pd
  let bdy := icBdy pb pd
  let cdy := icCdy pc pd
  let alift := fadd (fmul adx adx) (fmul ady ady)
  let blift := fadd (fmul bdx bdx) (fmul bdy bdy)
  let clift := fadd (fmul cdx cdx) (fmul cdy cdy)
  fadd (fadd (fmul alift (fsub (icBdxcdy pb pc pd) (icCdxbdy pb pc pd)))
             (fmul blift (fsub (fmul cdx ady) (fmul adx cdy))))
       (fmul clift (fsub (fmul adx bdy) (fmul bdx ady)))

/-- adaptive::incircle `permanent` (lines 443-445). -/
def icPermanent (pa pb pc pd : P2) : ℚ :=
  let adx := icAdx pa pd
  let bdx := icBdx pb pd
  let cdx := icCdx pc pd
  let ady := icAdy pa pd
  let bdy := icBdy pb pd
  let cdy := icCdy pc pd
  let alift := fadd (fmul adx adx) (fmul ady ady)
  let blift := fadd (fmul bdx bdx) (fmul bdy bdy)
  let clift := fadd (fmul cdx cdx) (fmul cdy cdy)
  fadd (fadd (fmul (fadd (qabs (icBdxcdy pb pc pd)) (qabs (icCdxbdy pb pc pd))) alift)
             (fmul (fadd (qabs (fmul cdx ady)) (qabs (fmul adx cdy))) blift))
       (fmul (fadd (qabs (fmul adx bdy)) (qabs (fmul bdx ady))) clift)

/-- adaptive::incircle stage-A certification test (line 447). -/
@[reducible] def icTestA (pa pb pc pd : P2) : Prop :=
  qabs (icDetFast pa pb pc pd) ≥ qabs (fmul iccerrboundA (icPermanent pa pb pc pd))

/-- adaptive::incircle stage-B expansion `fin1 = adet + bdet + cdet`
(lines 449-455). -/
def icFin1 (pa pb pc pd : P2) : List ℚ :=
  let adx := icAdx pa pd
  let bdx := icBdx pb pd
  let cdx := icCdx pc pd
  let ady := icAdy pa pd
  let bdy := icBdy pb pd
  let cdy := icCdy pc pd
  let bc := twoTwoDiff bdx cdy cdx bdy
  let ca := twoTwoDiff cdx ady adx cdy
  let ab := twoTwoDiff adx bdy bdx ady
  let adet := expansionSum (scaleExpansion (scaleExpansion bc adx) adx)
                           (scaleExpansion (scaleExpansion bc ady) ady)
  let bdet := expansionSum (scaleExpansion (scaleExpansion ca bdx) bdx)
                           (scaleExpansion (scaleExpansion ca bdy) bdy)
  let cdet := expansionSum (scaleExpansion (scaleExpansion ab cdx) cdx)
                           (scaleExpansion (scaleExpansion ab cdy) cdy)
  expansionSum (expansionSum adet bdet) cdet

/-- adaptive::incircle stage-B estimate. -/
def icDetB (pa pb pc pd : P2) : ℚ := estimate (icFin1 pa pb pc pd)

/-- adaptive::incircle stage-B certification test (line 458). -/
@[reducible] def icTestB (pa pb pc pd : P2) : Prop :=
  qabs (icDetB pa pb pc pd) ≥ qabs (fmul iccerrboundB (icPermanent pa pb pc pd))

/-- adaptive::incircle `adxtail`. -/
def icAdxtail (pa pd : P2) : ℚ := minusTail pa.1 pd.1 (icAdx pa pd)

/-- adaptive::incircle `adytail`. -/
def icAdytail (pa pd : P2) : ℚ := minusTail pa.2 pd.2 (icAdy pa pd)

/-- adaptive::incircle `bdxtail`. -/
def icBdxtail (pb pd : P2) : ℚ := minusTail pb.1 pd.1 (icBdx pb pd)

/-- adaptive::incircle `bdytail`. -/
def icBdytail (pb pd : P2) : ℚ := minusTail pb.2 pd.2 (icBdy pb pd)

/-- adaptive::incircle `cdxtail`. -/
def icCdxtail (pc pd : P2) : ℚ := minusTail pc.1 pd.1 (icCdx pc pd)

/-- adaptive::incircle `cdytail`. -/
def icCdytail (pc pd : P2) : ℚ := minusTail pc.2 pd.2 (icCdy pc pd)

/-- adaptive::incircle all-tails-zero early exit condition (line 466). -/
@[reducible] def icTailsZero (pa pb pc pd : P2) : Prop :=
  icAdxtail pa pd = 0 ∧ icBdxtail pb pd = 0 ∧ icCdxtail pc pd = 0 ∧
    icAdytail pa pd = 0 ∧ icBdytail pb pd = 0 ∧ icCdytail pc pd = 0

/-- adaptive::incircle stage-C corrected determinant (lines 469-474). -/
def icDetC (pa pb pc pd : P2) : ℚ :=
  let adx := icAdx pa pd
  let bdx := icBdx pb pd
  let cdx := icCdx pc pd
  let ady := icAdy pa pd
  let bdy := icBdy pb pd
  let cdy := icCdy pc pd
  let adxtail := icAdxtail pa pd
  let adytail := icAdytail pa pd
  let bdxtail := icBdxtail pb pd
  let bdytail := icBdytail pb pd
  let cdxtail := icCdxtail pc pd
  let cdytail := icCdytail pc pd
  let g1 := fadd (fmul (fadd (fmul adx adx) (fmul ady ady))
                       (fsub (fadd (fmul bdx cdytail) (fmul cdy bdxtail))
                             (fadd (fmul bdy cdxtail) (fmul cdx bdytail))))
                 (fmul (fmul (fsub (fmul bdx cdy) (fmul bdy cdx))
                             (fadd (fmul adx adxtail) (fmul ady adytail))) (qofN 2))
  let g2 := fadd (fmul (fadd (fmul bdx bdx) (fmul bdy bdy))
                       (fsub (fadd (fmul cdx adytail) (fmul ady cdxtail))
                             (fadd (fmul cdy adxtail) (fmul adx cdytail))))
                 (fmul (fmul (fsub (fmul cdx ady) (fmul cdy adx))
                             (fadd (fmul bdx bdxtail) (fmul bdy bdytail))) (qofN 2))
  let g3 := fadd (fmul (fadd (fmul cdx cdx) (fmul cdy cdy))
                       (fsub (fadd (fmul adx bdytail) (fmul bdy adxtail))
                             (fadd (fmul ady bdxtail) (fmul bdx adytail))))
                 (fmul (fmul (fsub (fmul adx bdy) (fmul ady bdx))
                             (fadd (fmul cdx cdxtail) (fmul cdy cdytail))) (qofN 2))
  fadd (icDetB pa pb pc pd) (fadd (fadd g1 g2) g3)

/-- adaptive::incircle stage-C error bound (line 468). -/
def icErrC (pa pb pc pd : P2) : ℚ :=
  fadd (fmul iccerrboundC (icPermanent pa pb pc pd))
       (fmul resulterrbound (qabs (icDetB pa pb pc pd)))

/-- adaptive::incircle stage-C certification test (line 475). -/
@[reducible] def icTestC (pa pb pc pd : P2) : Prop :=
  qabs (icDetC pa pb pc pd) ≥ qabs (icErrC pa pb pc pd)

/-- `predicates::adaptive::incircle` (lines 426-477). -/
def adaptiveIncircle (pa pb pc pd : P2) : ℚ :=
  if icTestA pa pb pc pd then icDetFast pa pb pc pd
  else if icTestB pa pb pc pd then icDetB pa pb pc pd
  else if icTailsZero pa pb pc pd then icDetB pa pb pc pd
  else if icTestC pa pb pc pd then icDetC pa pb pc pd
  else exactIncircle pa pb pc pd

/-- adaptive::orient3d `adx = pa[0] - pd[0]`. -/
def o3Adx (pa pd : P3) : ℚ := fsub pa.1 pd.1

/-- adaptive::orient3d `bdx`. -/
def o3Bdx (pb pd : P3) : ℚ := fsub pb.1 pd.1

/-- adaptive::orient3d `cdx`. -/
def o3Cdx (pc pd : P3) : ℚ := fsub pc.1 pd.1

/-- adaptive::orient3d `ady`. -/
def o3Ady (pa pd : P3) : ℚ := fsub pa.2.1 pd.2.1

/-- adaptive::orient3d `bdy`. -/
def o3Bdy (pb pd : P3) : ℚ := fsub pb.2.1 pd.2.1

/-- adaptive::orient3d `cdy`. -/
def o3Cdy (pc pd : P3) : ℚ := fsub pc.2.1 pd.2.1

/-- adaptive::orient3d `adz`. -/
def o3Adz (pa pd : P3) : ℚ := fsub pa.2.2 pd.2.2

/-- adaptive::orient3d `bdz`. -/
def o3Bdz (pb pd : P3) : ℚ := fsub pb.2.2 pd.2.2

/-- adaptive::orient3d `cdz`. -/
def o3Cdz (pc pd : P3) : ℚ := fsub pc.2.2 pd.2.2

/-- adaptive::orient3d fast determinant (line 495). -/
def o3DetFast (pa pb pc pd : P3) : ℚ :=
  fadd (fadd (fmul (o3Adz pa pd) (fsub (fmul (o3Bdx pb pd) (o3Cdy pc pd)) (fmul (o3Cdx pc pd) (o3Bdy pb pd))))
             (fmul (o3Bdz pb pd) (fsub (fmul (o3Cdx pc pd) (o3Ady pa pd)) (fmul (o3Adx pa pd) (o3Cdy pc pd)))))
       (fmul (o3Cdz pc pd) (fsub (fmul (o3Adx pa pd) (o3Bdy pb pd)) (fmul (o3Bdx pb pd) (o3Ady pa pd))))

/-- adaptive::orient3d `permanent` (line 496). -/
def o3Permanent (pa pb pc pd : P3) : ℚ :=
  fadd (fadd (fmul (fadd (qabs (fmul (o3Bdx pb pd) (o3Cdy pc pd))) (qabs (fmul (o3Cdx pc pd) (o3Bdy pb pd)))) (qabs (o3Adz pa pd)))
             (fmul (fadd (qabs (fmul (o3Cdx pc pd) (o3Ady pa pd))) (qabs (fmul (o3Adx pa pd) (o3Cdy pc pd)))) (qabs (o3Bdz pb pd))))
       (fmul (fadd (qabs (fmul (o3Adx pa pd) (o3Bdy pb pd))) (qabs (fmul (o3Bdx pb pd) (o3Ady pa pd)))) (qabs (o3Cdz pc pd)))

/-- adaptive::orient3d stage-A certification test (line 498). -/
@[reducible] def o3TestA (pa pb pc pd : P3) : Prop :=
  qabs (o3DetFast pa pb pc pd) ≥ qabs (fmul o3derrboundA (o3Permanent pa pb pc pd))

/-- adaptive::orient3d expansion `bc = TwoTwoDiff(bdx, cdy, cdx, bdy)`. -/
def o3BC (pb pc pd : P3) : List ℚ :=
  twoTwoDiff (o3Bdx pb pd) (o3Cdy pc pd) (o3Cdx pc pd) (o3Bdy pb pd)

/-- adaptive::orient3d expansion `ca = TwoTwoDiff(cdx, ady, adx, cdy)`. -/
def o3CA (pa pc pd : P3) : List ℚ :=
  twoTwoDiff (o3Cdx pc pd) (o3Ady pa pd) (o3Adx pa pd) (o3Cdy pc pd)

/-- adaptive::orient3d expansion `ab = TwoTwoDiff(adx, bdy, bdx, ady)`. -/
def o3AB (pa pb pd : P3) : List ℚ :=
  twoTwoDiff (o3Adx pa pd) (o3Bdy pb pd) (o3Bdx pb pd) (o3Ady pa pd)

/-- adaptive::orient3d stage-B expansion `fin1 = (bc*adz + ca*bdz) + ab*cdz`
(line 503). -/
def o3Fin1 (pa pb pc pd : P3) : List ℚ :=
  expansionSum (expansionSum (scaleExpansion (o3BC pb pc pd) (o3Adz pa pd))
                             (scaleExpansion (o3CA pa pc pd) (o3Bdz pb pd)))
               (scaleExpansion (o3AB pa pb pd) (o3Cdz pc pd))

/-- adaptive::orient3d stage-B estimate. -/
def o3DetB (pa pb pc pd : P3) : ℚ := estimate (o3Fin1 pa pb pc pd)

/-- adaptive::orient3d stage-B certification test (line 506). -/
@[reducible] def o3TestB (pa pb pc pd : P3) : Prop :=
  qabs (o3DetB pa pb pc pd) ≥ qabs (fmul o3derrboundB (o3Permanent pa pb pc pd))

/-- adaptive::orient3d `adxtail`. -/
def o3Adxtail (pa pd : P3) : ℚ := minusTail pa.1 pd.1 (o3Adx pa pd)

/-- adaptive::orient3d `bdxtail`. -/
def o3Bdxtail (pb pd : P3) : ℚ := minusTail pb.1 pd.1 (o3Bdx pb pd)

/-- adaptive::orient3d `cdxtail`. -/
def o3Cdxtail (pc pd : P3) : ℚ := minusTail pc.1 pd.1 (o3Cdx pc pd)

/-- adaptive::orient3d `adytail`. -/
def o3Adytail (pa pd : P3) : ℚ := minusTail pa.2.1 pd.2.1 (o3Ady pa pd)

/-- adaptive::orient3d `bdytail`. -/
def o3Bdytail (pb pd : P3) : ℚ := minusTail pb.2.1 pd.2.1 (o3Bdy pb pd)

/-- adaptive::orient3d `cdytail`. -/
def o3Cdytail (pc pd : P3) : ℚ := minusTail pc.2.1 pd.2.1 (o3Cdy pc pd)

/-- adaptive::orient3d `adztail`. -/
def o3Adztail (pa pd : P3) : ℚ := minusTail pa.2.2 pd.2.2 (o3Adz pa pd)

/-- adaptive::orient3d `bdztail`. -/
def o3Bdztail (pb pd : P3) : ℚ := minusTail pb.2.2 pd.2.2 (o3Bdz pb pd)

/-- adaptive::orient3d `cdztail`. -/
def o3Cdztail (pc pd : P3) : ℚ := minusTail pc.2.2 pd.2.2 (o3Cdz pc pd)

/-- adaptive::orient3d all-tails-zero early exit condition (lines 517-519). -/
@[reducible] def o3TailsZero (pa pb pc pd : P3) : Prop :=
  o3Adxtail pa pd = 0 ∧ o3Adytail pa pd = 0 ∧ o3Adztail pa pd = 0 ∧
    o3Bdxtail pb pd = 0 ∧ o3Bdytail pb pd = 0 ∧ o3Bdztail pb pd = 0 ∧
    o3Cdxtail pc pd = 0 ∧ o3Cdytail pc pd = 0 ∧ o3Cdztail pc pd = 0

/-- adaptive::orient3d stage-C corrected determinant (lines 522-524). -/
def o3DetC (pa pb pc pd : P3) : ℚ :=
  let adx := o3Adx pa pd
  let bdx := o3Bdx pb pd
  let cdx := o3Cdx pc pd
  let ady := o3Ady pa pd
  let bdy := o3Bdy pb pd
  let cdy := o3Cdy pc pd
  let adz := o3Adz pa pd
  let bdz := o3Bdz pb pd
  let cdz := o3Cdz pc pd
  let g1 := fadd (fmul adz (fsub (fadd (fmul bdx (o3Cdytail pc pd)) (fmul cdy (o3Bdxtail pb pd)))
                                 (fadd (fmul bdy (o3Cdxtail pc pd)) (fmul cdx (o3Bdytail pb pd)))))
                 (fmul (o3Adztail pa pd) (fsub (fmul bdx cdy) (fmul bdy cdx)))
  let g2 := fadd (fmul bdz (fsub (fadd (fmul cdx (o3Adytail pa pd)) (fmul ady (o3Cdxtail pc pd)))
                                 (fadd (fmul cdy (o3Adxtail pa pd)) (fmul adx (o3Cdytail pc pd)))))
                 (fmul (o3Bdztail pb pd) (fsub (fmul cdx ady) (fmul cdy adx)))
  let g3 := fadd (fmul cdz (fsub (fadd (fmul adx (o3Bdytail pb pd)) (fmul bdy (o3Adxtail pa pd)))
                                 (fadd (fmul ady (o3Bdxtail pb pd)) (fmul bdx (o3Adytail pa pd)))))
                 (fmul (o3Cdztail pc pd) (fsub (fmul adx bdy) (fmul ady bdx)))
  fadd (o3DetB pa pb pc pd) (fadd (fadd g1 g2) g3)

/-- adaptive::orient3d stage-C error bound (line 521). -/
def o3ErrC (pa pb pc pd : P3) : ℚ :=
  fadd (fmul o3derrboundC (o3Permanent pa pb pc pd))
       (fmul resulterrbound (qabs (o3DetB pa pb pc pd)))

/-- adaptive::orient3d stage-C certification test (line 525). -/
@[reducible] def o3TestC (pa pb pc pd : P3) : Prop :=
  qabs (o3DetC pa pb pc pd) ≥ qabs (o3ErrC pa pb pc pd)

/-- adaptive::orient3d final-stage expansion `fin2` (lines 527-537),
built with `TwoTwoDiffZeroCheck` and `ThreeProd`. -/
def o3Fin2 (pa pb pc pd : P3) : List ℚ :=
  let adx := o3Adx pa pd
  let bdx := o3Bdx pb pd
  let cdx := o3Cdx pc pd
  let ady := o3Ady pa pd
  let bdy := o3Bdy pb pd
  let cdy := o3Cdy pc pd
  let adz := o3Adz pa pd
  let bdz := o3Bdz pb pd
  let cdz := o3Cdz pc pd
  let adxtail := o3Adxtail pa pd
  let bdxtail := o3Bdxtail pb pd
  let cdxtail := o3Cdxtail pc pd
  let adytail := o3Adytail pa pd
  let bdytail := o3Bdytail pb pd
  let cdytail := o3Cdytail pc pd
  let adztail := o3Adztail pa pd
  let bdztail := o3Bdztail pb pd
  let cdztail := o3Cdztail pc pd
  let bct := expansionSum (twoTwoDiffZeroCheck bdxtail cdy bdytail cdx)
                          (twoTwoDiffZeroCheck cdytail bdx cdxtail bdy)
  let cat := expansionSum (twoTwoDiffZeroCheck cdxtail ady cdytail adx)
                          (twoTwoDiffZeroCheck adytail cdx adxtail cdy)
  let abt := expansionSum (twoTwoDiffZeroCheck adxtail bdy adytail bdx)
                          (twoTwoDiffZeroCheck bdytail adx bdxtail ady)
  let f1 := expansionSum (o3Fin1 pa pb pc pd) (scaleExpansion bct adz)
  let f2 := expansionSum f1 (scaleExpansion cat bdz)
  let f3 := expansionSum f2 (scaleExpansion abt cdz)
  let f4 := expansionSum f3 (scaleExpansion (o3BC pb pc pd) adztail)
  let f5 := expansionSum f4 (scaleExpansion (o3CA pa pc pd) bdztail)
  let f6 := expansionSum f5 (scaleExpansion (o3AB pa pb pd) cdztail)
  let f7 := expansionSum f6 (threeProd adxtail bdytail cdz)
  let f8 := expansionSum f7 (threeProd adxtail bdytail cdztail)
  let f9 := expansionSum f8 (threeProd (qneg adxtail) cdytail bdz)
  let f10 := expansionSum f9 (threeProd (qneg adxtail) cdytail bdztail)
  let f11 := expansionSum f10 (threeProd bdxtail cdytail adz)
  let f12 := expansionSum f11 (threeProd bdxtail cdytail adztail)
  let f13 := expansionSum f12 (threeProd (qneg bdxtail) adytail cdz)
  let f14 := expansionSum f13 (threeProd (qneg bdxtail) adytail cdztail)
  let f15 := expansionSum f14 (threeProd cdxtail adytail bdz)
  let f16 := expansionSum f15 (threeProd cdxtail adytail bdztail)
  let f17 := expansionSum f16 (threeProd (qneg cdxtail) bdytail adz)
  let f18 := expansionSum f17 (threeProd (qneg cdxtail) bdytail adztail)
  let f19 := expansionSum f18 (scaleExpansion bct adztail)
  let f20 := expansionSum f19 (scaleExpansion cat bdztail)
  expansionSum f20 (scaleExpansion abt cdztail)

/-- `predicates::adaptive::orient3d` (lines 479-539). -/
def adaptiveOrient3d (pa pb pc pd : P3) : ℚ :=
  if o3TestA pa pb pc pd then o3DetFast pa pb pc pd
  else if o3TestB pa pb pc pd then o3DetB pa pb pc pd
  else if o3TailsZero pa pb pc pd then o3DetB pa pb pc pd
  else if o3TestC pa pb pc pd then o3DetC pa pb pc pd
  else mostSignificant (o3Fin2 pa pb pc pd)

/-- adaptive::insphere `aex = pa[0] - pe[0]`. -/
def spAex (pa pe : P3) : ℚ := fsub pa.1 pe.1

/-- adaptive::insphere `bex`. -/
def spBex (pb pe : P3) : ℚ := fsub pb.1 pe.1

/-- adaptive::insphere `cex`. -/
def spCex (pc pe : P3) : ℚ := fsub pc.1 pe.1

/-- adaptive::insphere `dex`. -/
def spDex (pd pe : P3) : ℚ := fsub pd.1 pe.1

/-- adaptive::insphere `aey`. -/
def spAey (pa pe : P3) : ℚ := fsub pa.2.1 pe.2.1

/-- adaptive::insphere `bey`. -/
def spBey (pb pe : P3) : ℚ := fsub pb.2.1 pe.2.1

/-- adaptive::insphere `cey`. -/
def spCey (pc pe : P3) : ℚ := fsub pc.2.1 pe.2.1

/-- adaptive::insphere `dey`. -/
def spDey (pd pe : P3) : ℚ := fsub pd.2.1 pe.2.1

/-- adaptive::insphere `aez`. -/
def spAez (pa pe : P3) : ℚ := fsub pa.2.2 pe.2.2

/-- adaptive::insphere `bez`. -/
def spBez (pb pe : P3) : ℚ := fsub pb.2.2 pe.2.2

/-- adaptive::insphere `cez`. -/
def spCez (pc pe : P3) : ℚ := fsub pc.2.2 pe.2.2

/-- adaptive::insphere `dez`. -/
def spDez (pd pe : P3) : ℚ := fsub pd.2.2 pe.2.2

/-- adaptive::insphere fast determinant (block at lines 555-582). -/
def spDetFast (pa pb pc pd pe : P3) : ℚ :=
  let aex := spAex pa pe
  let bex := spBex pb pe
  let cex := spCex pc pe
  let dex := spDex pd pe
  let aey := spAey pa pe
  let bey := spBey pb pe
  let cey := spCey pc pe
  let dey := spDey pd pe
  let aez := spAez pa pe
  let bez := spBez pb pe
  let cez := spCez pc pe
  let dez := spDez pd pe
  let ab := fsub (fmul aex bey) (fmul bex aey)
  let bc := fsub (fmul bex cey) (fmul cex bey)
  let cd := fsub (fmul cex dey) (fmul dex cey)
  let da := fsub (fmul dex aey) (fmul aex dey)
  let ac := fsub (fmul aex cey) (fmul cex aey)
  let bd := fsub (fmul bex dey) (fmul dex bey)
  let abc := fadd (fsub (fmul aez bc) (fmul bez ac)) (fmul cez ab)
  let bcd := fadd (fsub (fmul bez cd) (fmul cez bd)) (fmul dez bc)
  let cda := fadd (fadd (fmul cez da) (fmul dez ac)) (fmul aez cd)
  let dab := fadd (fadd (fmul dez ab) (fmul aez bd)) (fmul bez da)
  let alift := fadd (fadd (fmul aex aex) (fmul aey aey)) (fmul aez aez)
  let blift := fadd (fadd (fmul bex bex) (fmul bey bey)) (fmul bez bez)
  let clift := fadd (fadd (fmul cex cex) (fmul cey cey)) (fmul cez cez)
  let dlift := fadd (fadd (fmul dex dex) (fmul dey dey)) (fmul dez dez)
  fadd (fsub (fmul dlift abc) (fmul clift dab)) (fsub (fmul blift cda) (fmul alift bcd))

/-- adaptive::insphere `permanent` (lines 599-602). -/
def spPermanent (pa pb pc pd pe : P3) : ℚ :=
  let aex := spAex pa pe
  let bex := spBex pb pe
  let cex := spCex pc pe
  let dex := spDex pd pe
  let aey := spAey pa pe
  let bey := spBey pb pe
  let cey := spCey pc pe
  let dey := spDey pd pe
  let aez := spAez pa pe
  let bez := spBez pb pe
  let cez := spCez pc pe
  let dez := spDez pd pe
  let aezplus := qabs aez
  let bezplus := qabs bez
  let cezplus := qabs cez
  let dezplus := qabs dez
  let aexbeyplus := qabs (fmul aex bey)
  let bexaeyplus := qabs (fmul bex aey)
  let bexceyplus := qabs (fmul bex cey)
  let cexbeyplus := qabs (fmul cex bey)
  let cexdeyplus := qabs (fmul cex dey)
  let dexceyplus := qabs (fmul dex cey)
  let dexaeyplus := qabs (fmul dex aey)
  let aexdeyplus := qabs (fmul aex dey)
  let aexceyplus := qabs (fmul aex cey)
  let cexaeyplus := qabs (fmul cex aey)
  let bexdeyplus := qabs (fmul bex dey)
  let dexbeyplus := qabs (fmul dex bey)
  let alift := fadd (fadd (fmul aex aex) (fmul aey aey)) (fmul aez aez)
  let blift := fadd (fadd (fmul bex bex) (fmul bey bey)) (fmul bez bez)
  let clift := fadd (fadd (fmul cex cex) (fmul cey cey)) (fmul cez cez)
  let dlift := fadd (fadd (fmul dex dex) (fmul dey dey)) (fmul dez dez)
  fadd (fadd (fadd
    (fmul (fadd (fadd (fmul (fadd cexdeyplus dexceyplus) bezplus)
                      (fmul (fadd dexbeyplus bexdeyplus) cezplus))
                (fmul (fadd bexceyplus cexbeyplus) dezplus)) alift)
    (fmul (fadd (fadd (fmul (fadd dexaeyplus aexdeyplus) cezplus)
                      (fmul (fadd aexceyplus cexaeyplus) dezplus))
                (fmul (fadd cexdeyplus dexceyplus) aezplus)) blift))
    (fmul (fadd (fadd (fmul (fadd aexbeyplus bexaeyplus) dezplus)
                      (fmul (fadd bexdeyplus dexbeyplus) aezplus))
                (fmul (fadd dexaeyplus aexdeyplus) bezplus)) clift))
    (fmul (fadd (fadd (fmul (fadd bexceyplus cexbeyplus) aezplus)
                      (fmul (fadd cexaeyplus aexceyplus) bezplus))
                (fmul (fadd aexbeyplus bexaeyplus) cezplus)) dlift)

/-- adaptive::insphere stage-A certification test (line 604). -/
@[reducible] def spTestA (pa pb pc pd pe : P3) : Prop :=
  qabs (spDetFast pa pb pc pd pe) ≥ qabs (fmul isperrboundA (spPermanent pa pb pc pd pe))

/-- adaptive::insphere expansion `ab = TwoTwoDiff(aex, bey, bex, aey)`. -/
def spAB (pa pb pe : P3) : List ℚ := twoTwoDiff (spAex pa pe) (spBey pb pe) (spBex pb pe) (spAey pa pe)

/-- adaptive::insphere expansion `bc`. -/
def spBC (pb pc pe : P3) : List ℚ := twoTwoDiff (spBex pb pe) (spCey pc pe) (spCex pc pe) (spBey pb pe)

/-- adaptive::insphere expansion `cd`. -/
def spCD (pc pd pe : P3) : List ℚ := twoTwoDiff (spCex pc pe) (spDey pd pe) (spDex pd pe) (spCey pc pe)

/-- adaptive::insphere expansion `da`. -/
def spDA (pa pd pe : P3) : List ℚ := twoTwoDiff (spDex pd pe) (spAey pa pe) (spAex pa pe) (spDey pd pe)

/-- adaptive::insphere expansion `ac`. -/
def spAC (pa pc pe : P3) : List ℚ := twoTwoDiff (spAex pa pe) (spCey pc pe) (spCex pc pe) (spAey pa pe)

/-- adaptive::insphere expansion `bd`. -/
def spBD (pb pd pe : P3) : List ℚ := twoTwoDiff (spBex pb pe) (spDey pd pe) (spDex pd pe) (spBey pb pe)

/-- adaptive::insphere stage-B expansion `fin1` (lines 613-621). -/
def spFin1 (pa pb pc pd pe : P3) : List ℚ :=
  let temp24a := expansionSum (scaleExpansion (spBC pb pc pe) (spDez pd pe))
                   (expansionSum (scaleExpansion (spCD pc pd pe) (spBez pb pe))
                                 (scaleExpansion (spBD pb pd pe) (qneg (spCez pc pe))))
  let temp24b := expansionSum (scaleExpansion (spCD pc pd pe) (spAez pa pe))
                   (expansionSum (scaleExpansion (spDA pa pd pe) (spCez pc pe))
                                 (scaleExpansion (spAC pa pc pe) (spDez pd pe)))
  let temp24c := expansionSum (scaleExpansion (spDA pa pd pe) (spBez pb pe))
                   (expansionSum (scaleExpansion (spAB pa pb pe) (spDez pd pe))
                                 (scaleExpansion (spBD pb pd pe) (spAez pa pe)))
  let temp24d := expansionSum (scaleExpansion (spAB pa pb pe) (spCez pc pe))
                   (expansionSum (scaleExpansion (spBC pb pc pe) (spAez pa pe))
                                 (scaleExpansion (spAC pa pc pe) (qneg (spBez pb pe))))
  let adet := expansionSum (expansionSum
                (scaleExpansion (scaleExpansion temp24a (spAex pa pe)) (qneg (spAex pa pe)))
                (scaleExpansion (scaleExpansion temp24a (spAey pa pe)) (qneg (spAey pa pe))))
                (scaleExpansion (scaleExpansion temp24a (spAez pa pe)) (qneg (spAez pa pe)))
  let bdet := expansionSum (expansionSum
                (scaleExpansion (scaleExpansion temp24b (spBex pb pe)) (spBex pb pe))
                (scaleExpansion (scaleExpansion temp24b (spBey pb pe)) (spBey pb pe)))
                (scaleExpansion (scaleExpansion temp24b (spBez pb pe)) (spBez pb pe))
  let cdet := expansionSum (expansionSum
                (scaleExpansion (scaleExpansion temp24c (spCex pc pe)) (qneg (spCex pc pe)))
                (scaleExpansion (scaleExpansion temp24c (spCey pc pe)) (qneg (spCey pc pe))))
                (scaleExpansion (scaleExpansion temp24c (spCez pc pe)) (qneg (spCez pc pe)))
  let ddet := expansionSum (expansionSum
                (scaleExpansion (scaleExpansion temp24d (spDex pd pe)) (spDex pd pe))
                (scaleExpansion (scaleExpansion temp24d (spDey pd pe)) (spDey pd pe)))
                (scaleExpansion (scaleExpansion temp24d (spDez pd pe)) (spDez pd pe))
  expansionSum (expansionSum adet bdet) (expansionSum cdet ddet)

/-- adaptive::insphere stage-B estimate. -/
def spDetB (pa pb pc pd pe : P3) : ℚ := estimate (spFin1 pa pb pc pd pe)

/-- adaptive::insphere stage-B certification test (line 624). -/
@[reducible] def spTestB (pa pb pc pd pe : P3) : Prop :=
  qabs (spDetB pa pb pc pd pe) ≥ qabs (fmul isperrboundB (spPermanent pa pb pc pd pe))

/-- adaptive::insphere `aextail`. -/
def spAextail (pa pe : P3) : ℚ := minusTail pa.1 pe.1 (spAex pa pe)

/-- adaptive::insphere `aeytail`. -/
def spAeytail (pa pe : P3) : ℚ := minusTail pa.2.1 pe.2.1 (spAey pa pe)

/-- adaptive::insphere `aeztail`. -/
def spAeztail (pa pe : P3) : ℚ := minusTail pa.2.2 pe.2.2 (spAez pa pe)

/-- adaptive::insphere `bextail`. -/
def spBextail (pb pe : P3) : ℚ := minusTail pb.1 pe.1 (spBex pb pe)

/-- adaptive::insphere `beytail`. -/
def spBeytail (pb pe : P3) : ℚ := minusTail pb.2.1 pe.2.1 (spBey pb pe)

/-- adaptive::insphere `beztail`. -/
def spBeztail (pb pe : P3) : ℚ := minusTail pb.2.2 pe.2.2 (spBez pb pe)

/-- adaptive::insphere `cextail`. -/
def spCextail (pc pe : P3) : ℚ := minusTail pc.1 pe.1 (spCex pc pe)

/-- adaptive::insphere `ceytail`. -/
def spCeytail (pc pe : P3) : ℚ := minusTail pc.2.1 pe.2.1 (spCey pc pe)

/-- adaptive::insphere `ceztail`. -/
def spCeztail (pc pe : P3) : ℚ := minusTail pc.2.2 pe.2.2 (spCez pc pe)

/-- adaptive::insphere `dextail`. -/
def spDextail (pd pe : P3) : ℚ := minusTail pd.1 pe.1 (spDex pd pe)

/-- adaptive::insphere `deytail`. -/
def spDeytail (pd pe : P3) : ℚ := minusTail pd.2.1 pe.2.1 (spDey pd pe)

/-- adaptive::insphere `deztail`. -/
def spDeztail (pd pe : P3) : ℚ := minusTail pd.2.2 pe.2.2 (spDez pd pe)

/-- adaptive::insphere all-tails-zero early exit condition (lines 638-641). -/
@[reducible] def spTailsZero (pa pb pc pd pe : P3) : Prop :=
  spAextail pa pe = 0 ∧ spAeytail pa pe = 0 ∧ spAeztail pa pe = 0 ∧
    spBextail pb pe = 0 ∧ spBeytail pb pe = 0 ∧ spBeztail pb pe = 0 ∧
    spCextail pc pe = 0 ∧ spCeytail pc pe = 0 ∧ spCeztail pc pe = 0 ∧
    spDextail pd pe = 0 ∧ spDeytail pd pe = 0 ∧ spDeztail pd pe = 0

/-- adaptive::insphere stage-C corrected determinant (lines 644-663). -/
def spDetC (pa pb pc pd pe : P3) : ℚ :=
  let aex := spAex pa pe
  let bex := spBex pb pe
  let cex := spCex pc pe
  let dex := spDex pd pe
  let aey := spAey pa pe
  let bey := spBey pb pe
  let cey := spCey pc pe
  let dey := spDey pd pe
  let aez := spAez pa pe
  let bez := spBez pb pe
  let cez := spCez pc pe
  let dez := spDez pd pe
  let aextail := spAextail pa pe
  let aeytail := spAeytail pa pe
  let aeztail := spAeztail pa pe
  let bextail := spBextail pb pe
  let beytail := spBeytail pb pe
  let beztail := spBeztail pb pe
  let cextail := spCextail pc pe
  let ceytail := spCeytail pc pe
  let ceztail := spCeztail pc pe
  let dextail := spDextail pd pe
  let deytail := spDeytail pd pe
  let deztail := spDeztail pd pe
  let abeps := fsub (fadd (fmul aex beytail) (fmul bey aextail))
                    (fadd (fmul aey bextail) (fmul bex aeytail))
  let bceps := fsub (fadd (fmul bex ceytail) (fmul cey bextail))
                    (fadd (fmul bey cextail) (fmul cex beytail))
  let cdeps := fsub (fadd (fmul cex deytail) (fmul dey cextail))
                    (fadd (fmul cey dextail) (fmul dex ceytail))
  let daeps := fsub (fadd (fmul dex aeytail) (fmul aey dextail))
                    (fadd (fmul dey aextail) (fmul aex deytail))
  let aceps := fsub (fadd (fmul aex ceytail) (fmul cey aextail))
                    (fadd (fmul aey cextail) (fmul cex aeytail))
  let bdeps := fsub (fadd (fmul bex deytail) (fmul dey bextail))
                    (fadd (fmul bey dextail) (fmul dex beytail))
  let ab3 := mostSignificant (spAB pa pb pe)
  let bc3 := mostSignificant (spBC pb pc pe)
  let cd3 := mostSignificant (spCD pc pd pe)
  let da3 := mostSignificant (spDA pa pd pe)
  let ac3 := mostSignificant (spAC pa pc pe)
  let bd3 := mostSignificant (spBD pb pd pe)
  let t1 := fmul (fadd (fadd (fmul bex bex) (fmul bey bey)) (fmul bez bez))
                 (fadd (fadd (fadd (fmul cez daeps) (fmul dez aceps)) (fmul aez cdeps))
                       (fadd (fadd (fmul ceztail da3) (fmul deztail ac3)) (fmul aeztail cd3)))
  let t2 := fmul (fadd (fadd (fmul dex dex) (fmul dey dey)) (fmul dez dez))
                 (fadd (fadd (fsub (fmul aez bceps) (fmul bez aceps)) (fmul cez abeps))
                       (fadd (fsub (fmul aeztail bc3) (fmul beztail ac3)) (fmul ceztail ab3)))
  let t3 := fmul (fadd (fadd (fmul aex aex) (fmul aey aey)) (fmul aez aez))
                 (fadd (fadd (fsub (fmul bez cdeps) (fmul cez bdeps)) (fmul dez bceps))
                       (fadd (fsub (fmul beztail cd3) (fmul ceztail bd3)) (fmul deztail bc3)))
  let t4 := fmul (fadd (fadd (fmul cex cex) (fmul cey cey)) (fmul cez cez))
                 (fadd (fadd (fadd (fmul dez abeps) (fmul aez bdeps)) (fmul bez daeps))
                       (fadd (fadd (fmul deztail ab3) (fmul aeztail bd3)) (fmul beztail da3)))
  let u1 := fmul (fadd (fadd (fmul bex bextail) (fmul bey beytail)) (fmul bez beztail))
                 (fadd (fadd (fmul cez da3) (fmul dez ac3)) (fmul aez cd3))
  let u2 := fmul (fadd (fadd (fmul dex dextail) (fmul dey deytail)) (fmul dez deztail))
                 (fadd (fsub (fmul aez bc3) (fmul bez ac3)) (fmul cez ab3))
  let u3 := fmul (fadd (fadd (fmul aex aextail) (fmul aey aeytail)) (fmul aez aeztail))
                 (fadd (fsub (fmul bez cd3) (fmul cez bd3)) (fmul dez bc3))
  let u4 := fmul (fadd (fadd (fmul cex cextail) (fmul cey ceytail)) (fmul cez ceztail))
                 (fadd (fadd (fmul dez ab3) (fmul aez bd3)) (fmul bez da3))
  fadd (spDetB pa pb pc pd pe)
       (fadd (fsub (fadd t1 t2) (fadd t3 t4))
             (fmul (qofN 2) (fsub (fadd u1 u2) (fadd u3 u4))))

/-- adaptive::insphere stage-C error bound (line 643). -/
def spErrC (pa pb pc pd pe : P3) : ℚ :=
  fadd (fmul isperrboundC (spPermanent pa pb pc pd pe))
       (fmul resulterrbound (qabs (spDetB pa pb pc pd pe)))

/-- adaptive::insphere stage-C certification test (line 664). -/
@[reducible] def spTestC (pa pb pc pd pe : P3) : Prop :=
  qabs (spDetC pa pb pc pd pe) ≥ qabs (spErrC pa pb pc pd pe)

/-- `predicates::adaptive::insphere` (lines 541-666). -/
def adaptiveInsphere (pa pb pc pd pe : P3) : ℚ :=
  if spTestA pa pb pc pd pe then spDetFast pa pb pc pd pe
  else if spTestB pa pb pc pd pe then spDetB pa pb pc pd pe
  else if spTailsZero pa pb pc pd pe then spDetB pa pb pc pd pe
  else if spTestC pa pb pc pd pe then spDetC pa pb pc pd pe
  else exactInsphere pa pb pc pd pe

/-! Bridge lemmas: the kernel-reducible rational helpers agree with the
standard field operations on `ℚ`. -/

theorem qmk_eq (n d : ℤ) : qmk n d = (n : ℚ) / (d : ℚ) := Rat.divInt_eq_div n d

theorem qadd_eq (a b : ℚ) : qadd a b = a + b := by
  have ha : (a.den : ℤ) ≠ 0 := Int.natCast_ne_zero.mpr a.den_nz
  have hb : (b.den : ℤ) ≠ 0 := Int.natCast_ne_zero.mpr b.den_nz
  rw [qadd, qmk, ← Rat.divInt_add_divInt _ _ ha hb, Rat.num_divInt_den, Rat.num_divInt_den]

theorem qsub_eq (a b : ℚ) : qsub a b = a - b := by
  have ha : (a.den : ℤ) ≠ 0 := Int.natCast_ne_zero.mpr a.den_nz
  have hb : (b.den : ℤ) ≠ 0 := Int.natCast_ne_zero.mpr b.den_nz
  rw [qsub, qmk, ← Rat.divInt_sub_divInt _ _ ha hb, Rat.num_divInt_den, Rat.num_divInt_den]

theorem qmul_eq (a b : ℚ) : qmul a b = a * b := by
  have ha : (a.den : ℤ) ≠ 0 := Int.natCast_ne_zero.mpr a.den_nz
  have hb : (b.den : ℤ) ≠ 0 := Int.natCast_ne_zero.mpr b.den_nz
  rw [qmul, qmk, ← Rat.divInt_mul_divInt _ _ ha hb, Rat.num_divInt_den, Rat.num_divInt_den]

theorem qneg_eq (a : ℚ) : qneg a = -a := by
  rw [qneg, qmk, ← Rat.neg_divInt, Rat.num_divInt_den]

theorem qofN_eq (n : ℕ) : qofN n = (n : ℚ) := by
  rw [qofN, qmk, Rat.divInt_eq_div]
  simp

theorem qabs_eq (a : ℚ) : qabs a = |a| := by
  rw [qabs]
  split
  · rw [qneg_eq, abs_of_neg (by assumption)]
  · rw [abs_of_nonneg (le_of_not_lt (by assumption))]

theorem pow2Z_eq (k : ℤ) : pow2Z k = (2 : ℚ) ^ k := by
  rw [pow2Z]
  split
  · next h =>
    rw [qmk, Rat.divInt_eq_div]
    push_cast
    rw [div_one, ← zpow_natCast (2 : ℚ) k.toNat, Int.toNat_of_nonneg h]
  · next h =>
    rw [qmk, Rat.divInt_eq_div]
    push_cast
    rw [one_div, ← zpow_natCast (2 : ℚ) (-k).toNat, Int.toNat_of_nonneg (by omega), ← zpow_neg,
      neg_neg]

/-! Correctness of the executable binade computation and the sign
behaviour of `roundQ`. -/

theorem log2Fuel_spec : ∀ fuel n : ℕ, 1 ≤ n → n ≤ fuel →
    2 ^ log2Fuel fuel n ≤ n ∧ n < 2 ^ (log2Fuel fuel n + 1) := by
  intro fuel
  induction fuel with
  | zero => intro n h1 h2; omega
  | succ fuel ih =>
    intro n h1 h2
    rw [log2Fuel]
    split
    · next h => constructor <;> simp <;> omega
    · next h =>
      have hn2 : 2 ≤ n := by omega
      have r := ih (n / 2) (by omega) (by omega)
      constructor
      · calc 2 ^ (log2Fuel fuel (n / 2) + 1) = 2 * 2 ^ (log2Fuel fuel (n / 2)) := by ring
        _ ≤ 2 * (n / 2) := by omega
        _ ≤ n := by omega
      · calc n < 2 * (n / 2) + 2 := by omega
        _ ≤ 2 * 2 ^ (log2Fuel fuel (n / 2) + 1) := by omega
        _ = 2 ^ (log2Fuel fuel (n / 2) + 1 + 1) := by ring

theorem natLog2_spec (n : ℕ) (h : 1 ≤ n) :
    2 ^ natLog2 n ≤ n ∧ n < 2 ^ (natLog2 n + 1) :=
  log2Fuel_spec n n h le_rfl

theorem abs_eq_natAbs_div_den (q : ℚ) :
    |q| = (q.num.natAbs : ℚ) / (q.den : ℚ) := by
  conv_lhs => rw [← Rat.num_div_den q]
  rw [abs_div, abs_of_pos (show (0:ℚ) < (q.den:ℚ) by exact_mod_cast q.den_pos)]
  rw [show ((q.num.natAbs : ℚ)) = ((|q.num| : ℤ) : ℚ) from Nat.cast_natAbs q.num, Int.cast_abs]

theorem expoQ_bounds (q : ℚ) (hq : q ≠ 0) :
    (2:ℚ) ^ expoQ q ≤ |q| ∧ |q| < (2:ℚ) ^ (expoQ q + 1) := by
  have hnum : q.num ≠ 0 := Rat.num_ne_zero.mpr hq
  have ha1 : 1 ≤ q.num.natAbs := by
    have := Int.natAbs_pos.mpr hnum
    omega
  have hb1 : 1 ≤ q.den := q.pos
  set a := q.num.natAbs with hadef
  set b := q.den with hbdef
  obtain ⟨ha_lo, ha_hi⟩ := natLog2_spec a ha1
  obtain ⟨hb_lo, hb_hi⟩ := natLog2_spec b hb1
  set G : ℤ := (natLog2 a : ℤ) with hG
  set H : ℤ := (natLog2 b : ℤ) with hH
  have hbposQ : (0:ℚ) < (b:ℚ) := by exact_mod_cast hb1
  have haposQ : (0:ℚ) < (a:ℚ) := by exact_mod_cast ha1
  have hq1 : (2:ℚ) ^ G ≤ (a:ℚ) := by
    rw [hG, zpow_natCast]
    exact_mod_cast ha_lo
  have hq2 : (a:ℚ) < (2:ℚ) ^ (G + 1) := by
    rw [hG, show ((natLog2 a : ℤ) + 1) = ((natLog2 a + 1 : ℕ) : ℤ) by push_cast; ring, zpow_natCast]
    exact_mod_cast ha_hi
  have hq3 : (2:ℚ) ^ H ≤ (b:ℚ) := by
    rw [hH, zpow_natCast]
    exact_mod_cast hb_lo
  have hq4 : (b:ℚ) < (2:ℚ) ^ (H + 1) := by
    rw [hH, show ((natLog2 b : ℤ) + 1) = ((natLog2 b + 1 : ℕ) : ℤ) by push_cast; ring, zpow_natCast]
    exact_mod_cast hb_hi
  have habs : |q| = (a:ℚ) / (b:ℚ) := abs_eq_natAbs_div_den q
  have hupper : |q| < (2:ℚ) ^ (G - H + 1) := by
    rw [habs]
    calc (a:ℚ) / (b:ℚ) ≤ (a:ℚ) / (2:ℚ) ^ H :=
          div_le_div_of_nonneg_left haposQ.le (by positivity) hq3
    _ < (2:ℚ) ^ (G + 1) / (2:ℚ) ^ H := by
          apply div_lt_div_of_pos_right hq2
          positivity
    _ = (2:ℚ) ^ (G - H + 1) := by
          rw [← zpow_sub₀ (by norm_num : (2:ℚ) ≠ 0)]
          congr 1
          ring
  have hlower : (2:ℚ) ^ (G - H - 1) < |q| := by
    rw [habs]
    calc (2:ℚ) ^ (G - H - 1) = (2:ℚ) ^ G / (2:ℚ) ^ (H + 1) := by
          rw [← zpow_sub₀ (by norm_num : (2:ℚ) ≠ 0)]
          congr 1
          ring
    _ ≤ (a:ℚ) / (2:ℚ) ^ (H + 1) := by
          apply div_le_div_of_nonneg_right hq1
          positivity
    _ < (a:ℚ) / (b:ℚ) := div_lt_div_of_pos_left haposQ hbposQ hq4
  rw [expoQ]
  simp only [← hadef, ← hbdef, ← hG, ← hH]
  split
  · next h =>
    refine ⟨?_, hupper⟩
    rw [pow2Z_eq, qabs_eq] at h
    exact h
  · next h =>
    rw [pow2Z_eq, qabs_eq] at h
    constructor
    · exact hlower.le
    · calc |q| < (2:ℚ) ^ (G - H) := lt_of_not_le h
      _ = (2:ℚ) ^ (G - H - 1 + 1) := by congr 1; ring

theorem qfloorN_pos (y : ℚ) (h : 1 ≤ y) : 1 ≤ qfloorN y := by
  have hnum : (y.den : ℚ) ≤ (y.num : ℚ) := by
    have h0 : ((y.den : ℚ)) ≠ 0 := by positivity
    have hden : (y.num : ℚ) = y * (y.den : ℚ) := (div_eq_iff h0).mp (Rat.num_div_den y)
    rw [hden]
    calc (y.den : ℚ) = 1 * (y.den : ℚ) := (one_mul _).symm
    _ ≤ y * (y.den : ℚ) := by
        apply mul_le_mul_of_nonneg_right h
        positivity
  have hZ : (y.den : ℤ) ≤ y.num := by exact_mod_cast hnum
  have hN : y.den ≤ y.num.toNat := by omega
  rw [qfloorN, Nat.one_le_div_iff y.pos]
  exact hN

theorem roundY_one_le (q : ℚ) (hq : q ≠ 0) : 1 ≤ roundY q := by
  rw [roundY, qmul_eq, qabs_eq, pow2Z_eq]
  have h1 : (2:ℚ) ^ expoQ q ≤ |q| := (expoQ_bounds q hq).1
  calc (1:ℚ) ≤ (2:ℚ) ^ (52:ℤ) := by
        rw [show ((52:ℤ)) = ((52:ℕ):ℤ) by norm_num, zpow_natCast]
        norm_num
  _ = (2:ℚ) ^ (expoQ q) * (2:ℚ) ^ (52 - expoQ q) := by
        rw [← zpow_add₀ (by norm_num : (2:ℚ) ≠ 0)]
        congr 1
        ring
  _ ≤ |q| * (2:ℚ) ^ (52 - expoQ q) := by
        apply mul_le_mul_of_nonneg_right h1
        positivity

theorem roundM_pos (q : ℚ) (hq : q ≠ 0) : 1 ≤ roundM q := by
  have hn1 : 1 ≤ roundN q := qfloorN_pos _ (roundY_one_le q hq)
  rw [roundM]
  split
  · exact hn1
  · split
    · omega
    · split
      · exact hn1
      · omega

theorem roundQ_zero : roundQ 0 = 0 := by simp [roundQ]

theorem roundQ_pos (q : ℚ) (hq : 0 < q) : 0 < roundQ q := by
  have hne : q ≠ 0 := ne_of_gt hq
  rw [roundQ, if_neg hne, if_neg (not_lt.mpr hq.le), qmul_eq, qofN_eq, pow2Z_eq]
  have hm := roundM_pos q hne
  apply mul_pos
  · exact_mod_cast lt_of_lt_of_le one_pos (by exact_mod_cast hm)
  · positivity

theorem roundQ_neg (q : ℚ) (hq : q < 0) : roundQ q < 0 := by
  have hne : q ≠ 0 := ne_of_lt hq
  rw [roundQ, if_neg hne, if_pos hq, qneg_eq, qmul_eq, qofN_eq, pow2Z_eq, neg_lt_zero]
  have hm := roundM_pos q hne
  apply mul_pos
  · exact_mod_cast lt_of_lt_of_le one_pos (by exact_mod_cast hm)
  · positivity

theorem roundQ_pos_iff (q : ℚ) : 0 < roundQ q ↔ 0 < q := by
  constructor
  · intro h
    rcases lt_trichotomy q 0 with hq | hq | hq
    · exact absurd h (not_lt.mpr (roundQ_neg q hq).le)
    · rw [hq, roundQ_zero] at h
      exact absurd h (lt_irrefl 0)
    · exact hq
  · exact roundQ_pos q

theorem roundQ_neg_iff (q : ℚ) : roundQ q < 0 ↔ q < 0 := by
  constructor
  · intro h
    rcases lt_trichotomy q 0 with hq | hq | hq
    · exact hq
    · rw [hq, roundQ_zero] at h
      exact absurd h (lt_irrefl 0)
    · exact absurd h (not_lt.mpr (roundQ_pos q hq).le)
  · exact roundQ_neg q

theorem roundQ_eq_zero_iff (q : ℚ) : roundQ q = 0 ↔ q = 0 := by
  constructor
  · intro h
    rcases lt_trichotomy q 0 with hq | hq | hq
    · exact absurd h (ne_of_lt (roundQ_neg q hq))
    · exact hq
    · exact absurd h (ne_of_gt (roundQ_pos q hq))
  · intro h
    rw [h, roundQ_zero]

/-! Component-count bounds: every expansion-producing operation emits at
most as many components as the static capacity of its output type in the
source (`Expansion<T, N>`). -/

theorem mergeFuel_length (fuel : ℕ) : ∀ e f : List ℚ,
    (mergeFuel fuel e f).length = e.length + f.length := by
  induction fuel with
  | zero => intro e f; simp [mergeFuel]
  | succ fuel ih =>
    intro e f
    cases e with
    | nil => simp [mergeFuel]
    | cons a e =>
      cases f with
      | nil => simp [mergeFuel]
      | cons b f =>
        rw [mergeFuel]
        split
        · simp only [List.length_cons, ih]
          omega
        · simp only [List.length_cons, ih]
          omega

theorem mergeAbs_length (e f : List ℚ) :
    (mergeAbs e f).length = e.length + f.length := mergeFuel_length _ e f

theorem distillStep_length (acc : List ℚ × ℚ) (g : ℚ) :
    (distillStep acc g).1.length ≤ acc.1.length + 1 := by
  rw [distillStep]
  split <;> simp

theorem distill_foldl_length : ∀ (rest : List ℚ) (init : List ℚ) (q : ℚ),
    ((rest.foldl distillStep (init, q)).1).length ≤ init.length + rest.length := by
  intro rest
  induction rest with
  | nil => intro init q; simp
  | cons g rest ih =>
    intro init q
    rcases hstep : distillStep (init, q) g with ⟨l2, q2⟩
    have h1 := distillStep_length (init, q) g
    rw [hstep] at h1
    simp only at h1
    have h2 := ih l2 q2
    rw [List.foldl_cons, hstep]
    simp only [List.length_cons]
    omega

theorem distill_length (h : List ℚ) : (distill h).length ≤ h.length := by
  match h with
  | [] => simp [distill]
  | [x] => simp [distill]
  | h0 :: h1 :: rest =>
    simp only [distill]
    rcases hp : rest.foldl distillStep
        (if fastPlusTail h1 h0 (fadd h1 h0) = 0 then ([] : List ℚ)
          else [fastPlusTail h1 h0 (fadd h1 h0)], fadd h1 h0) with ⟨l2, q2⟩
    have hfold := distill_foldl_length rest
      (if fastPlusTail h1 h0 (fadd h1 h0) = 0 then ([] : List ℚ)
        else [fastPlusTail h1 h0 (fadd h1 h0)]) (fadd h1 h0)
    rw [hp] at hfold
    simp only at hfold
    have hinit : (if fastPlusTail h1 h0 (fadd h1 h0) = 0 then ([] : List ℚ)
        else [fastPlusTail h1 h0 (fadd h1 h0)]).length ≤ 1 := by
      split <;> simp
    simp only [List.length_cons]
    split
    · omega
    · simp only [List.length_append, List.length_cons, List.length_nil]
      omega

theorem expansionSum_length (e f : List ℚ) :
    (expansionSum e f).length ≤ e.length + f.length := by
  rw [expansionSum]
  split
  · simp
  · split
    · simp
    · calc (distill (mergeAbs e f)).length ≤ (mergeAbs e f).length := distill_length _
      _ = e.length + f.length := mergeAbs_length e f

theorem scaleStep_length (b : ℚ) (acc : List ℚ × ℚ) (ei : ℚ) :
    (scaleStep b acc ei).1.length ≤ acc.1.length + 2 := by
  rw [scaleStep]
  split
  · split <;> simp
  · split <;> simp

theorem scale_foldl_length (b : ℚ) : ∀ (rest : List ℚ) (init : List ℚ) (q : ℚ),
    ((rest.foldl (scaleStep b) (init, q)).1).length ≤ init.length + 2 * rest.length := by
  intro rest
  induction rest with
  | nil => intro init q; simp
  | cons g rest ih =>
    intro init q
    rcases hstep : scaleStep b (init, q) g with ⟨l2, q2⟩
    have h1 := scaleStep_length b (init, q) g
    rw [hstep] at h1
    simp only at h1
    have h2 := ih l2 q2
    rw [List.foldl_cons, hstep]
    simp only [List.length_cons]
    omega

theorem scaleExpansion_length (e : List ℚ) (b : ℚ) :
    (scaleExpansion e b).length ≤ 2 * e.length := by
  match e with
  | [] => simp [scaleExpansion]
  | e0 :: rest =>
    simp only [scaleExpansion]
    split
    · simp
    · rcases hp : rest.foldl (scaleStep b)
          (if multTail e0 b (fmul e0 b) = 0 then ([] : List ℚ)
            else [multTail e0 b (fmul e0 b)], fmul e0 b) with ⟨l2, q2⟩
      have hfold := scale_foldl_length b rest
        (if multTail e0 b (fmul e0 b) = 0 then ([] : List ℚ)
          else [multTail e0 b (fmul e0 b)]) (fmul e0 b)
      rw [hp] at hfold
      simp only at hfold
      have hinit : (if multTail e0 b (fmul e0 b) = 0 then ([] : List ℚ)
          else [multTail e0 b (fmul e0 b)]).length ≤ 1 := by
        split <;> simp
      simp only [List.length_cons]
      split
      · omega
      · simp only [List.length_append, List.length_cons, List.length_nil]
        omega

theorem makeExpansion_length (v t : ℚ) : (makeExpansion v t).length ≤ 2 := by
  rw [makeExpansion]
  split <;> split <;> simp

theorem plusE_length (a b : ℚ) : (plusE a b).length ≤ 2 := makeExpansion_length _ _

theorem multE_length (a b : ℚ) : (multE a b).length ≤ 2 := makeExpansion_length _ _

theorem twoTwoDiff_length (ax byy ay bxx : ℚ) : (twoTwoDiff ax byy ay bxx).length ≤ 4 := by
  rw [twoTwoDiff]
  split <;> split <;> split <;> split <;> simp

theorem twoTwoDiffZeroCheck_length (ax byy ay bxx : ℚ) :
    (twoTwoDiffZeroCheck ax byy ay bxx).length ≤ 4 := by
  rw [twoTwoDiffZeroCheck]
  split
  · simp
  · split
    · exact le_trans (multE_length _ _) (by norm_num)
    · split
      · exact le_trans (multE_length _ _) (by norm_num)
      · exact twoTwoDiff_length _ _ _ _

theorem threeProd_length (a b c : ℚ) : (threeProd a b c).length ≤ 4 := by
  rw [threeProd]
  split
  · simp
  · calc (scaleExpansion (multE a b) c).length ≤ 2 * (multE a b).length :=
        scaleExpansion_length _ _
    _ ≤ 4 := by have := multE_length a b; omega

/-! Sign transfer: `roundQ` (hence every rounded binary64 operation)
preserves the strict sign of its argument, which is what certifies the
fast-stage early return of adaptive::orient2d. -/

/-- Two rationals that are strictly positive / zero / strictly negative
together. -/
def SameSign (x y : ℚ) : Prop := (0 < x ↔ 0 < y) ∧ (x = 0 ↔ y = 0)

theorem SameSign.lt_iff {x y : ℚ} (h : SameSign x y) : x < 0 ↔ y < 0 := by
  rcases h with ⟨h1, h2⟩
  constructor
  · intro hx
    rcases lt_trichotomy y 0 with hy | hy | hy
    · exact hy
    · exact absurd (h2.mpr hy) (ne_of_lt hx)
    · exact absurd (h1.mpr hy) (not_lt.mpr hx.le)
  · intro hy
    rcases lt_trichotomy x 0 with hx | hx | hx
    · exact hx
    · exact absurd (h2.mp hx) (ne_of_lt hy)
    · exact absurd (h1.mp hx) (not_lt.mpr hy.le)

theorem SameSign.trans {x y z : ℚ} (h1 : SameSign x y) (h2 : SameSign y z) :
    SameSign x z := ⟨h1.1.trans h2.1, h1.2.trans h2.2⟩

theorem sameSign_of_pos {x y : ℚ} (hx : 0 < x) (hy : 0 < y) : SameSign x y :=
  ⟨iff_of_true hx hy, iff_of_false (ne_of_gt hx) (ne_of_gt hy)⟩

theorem sameSign_of_neg {x y : ℚ} (hx : x < 0) (hy : y < 0) : SameSign x y :=
  ⟨iff_of_false (not_lt.mpr hx.le) (not_lt.mpr hy.le),
   iff_of_false (ne_of_lt hx) (ne_of_lt hy)⟩

theorem sameSign_of_zero {x y : ℚ} (hx : x = 0) (hy : y = 0) : SameSign x y :=
  ⟨by rw [hx, hy], by rw [hx, hy]⟩

theorem sameSign_roundQ (x : ℚ) : SameSign (roundQ x) x :=
  ⟨roundQ_pos_iff x, roundQ_eq_zero_iff x⟩

theorem sameSign_mul {a a' b b' : ℚ} (h1 : SameSign a a') (h2 : SameSign b b') :
    SameSign (a * b) (a' * b') := by
  rcases lt_trichotomy a 0 with ha | ha | ha
  · have ha' : a' < 0 := h1.lt_iff.mp ha
    rcases lt_trichotomy b 0 with hb | hb | hb
    · exact sameSign_of_pos (mul_pos_of_neg_of_neg ha hb)
        (mul_pos_of_neg_of_neg ha' (h2.lt_iff.mp hb))
    · exact sameSign_of_zero (by rw [hb, mul_zero]) (by rw [h2.2.mp hb, mul_zero])
    · exact sameSign_of_neg (mul_neg_of_neg_of_pos ha hb)
        (mul_neg_of_neg_of_pos ha' (h2.1.mp hb))
  · exact sameSign_of_zero (by rw [ha, zero_mul]) (by rw [h1.2.mp ha, zero_mul])
  · have ha' : 0 < a' := h1.1.mp ha
    rcases lt_trichotomy b 0 with hb | hb | hb
    · exact sameSign_of_neg (mul_neg_of_pos_of_neg ha hb)
        (mul_neg_of_pos_of_neg ha' (h2.lt_iff.mp hb))
    · exact sameSign_of_zero (by rw [hb, mul_zero]) (by rw [h2.2.mp hb, mul_zero])
    · exact sameSign_of_pos (mul_pos ha hb) (mul_pos ha' (h2.1.mp hb))

theorem o2detleft_sameSign (pa pb pc : P2) :
    SameSign (o2detleft pa pb pc) ((pa.1 - pc.1) * (pb.2 - pc.2)) := by
  have hacx : SameSign (o2acx pa pc) (pa.1 - pc.1) := by
    rw [o2acx, fsub, qsub_eq]
    exact sameSign_roundQ _
  have hbcy : SameSign (o2bcy pb pc) (pb.2 - pc.2) := by
    rw [o2bcy, fsub, qsub_eq]
    exact sameSign_roundQ _
  rw [o2detleft, fmul, qmul_eq]
  exact (sameSign_roundQ _).trans (sameSign_mul hacx hbcy)

theorem o2detright_sameSign (pa pb pc : P2) :
    SameSign (o2detright pa pb pc) ((pa.2 - pc.2) * (pb.1 - pc.1)) := by
  have hacy : SameSign (o2acy pa pc) (pa.2 - pc.2) := by
    rw [o2acy, fsub, qsub_eq]
    exact sameSign_roundQ _
  have hbcx : SameSign (o2bcx pb pc) (pb.1 - pc.1) := by
    rw [o2bcx, fsub, qsub_eq]
    exact sameSign_roundQ _
  rw [o2detright, fmul, qmul_eq]
  exact (sameSign_roundQ _).trans (sameSign_mul hacy hbcx)

theorem o2detFast_sameSign_of_early (pa pb pc : P2) (h : o2dEarly pa pb pc) :
    SameSign (o2detFast pa pb pc) (orient2dRealDet pa pb pc) := by
  have hdl := o2detleft_sameSign pa pb pc
  have hdr := o2detright_sameSign pa pb pc
  set X : ℚ := (pa.1 - pc.1) * (pb.2 - pc.2) with hX
  set Z : ℚ := (pa.2 - pc.2) * (pb.1 - pc.1) with hZ
  have hreal : orient2dRealDet pa pb pc = X - Z := by
    rw [orient2dRealDet, qsub_eq, qmul_eq, qmul_eq, qsub_eq, qsub_eq, qsub_eq, qsub_eq]
  have hfast : SameSign (o2detFast pa pb pc)
      (o2detleft pa pb pc - o2detright pa pb pc) := by
    rw [o2detFast, fsub, qsub_eq]
    exact sameSign_roundQ _
  rw [hreal]
  apply hfast.trans
  have key : SameSign (o2detleft pa pb pc - o2detright pa pb pc) (X - Z) := by
    rcases h with hsb | hz | hz
    · rw [ne_eq, signbitQ, signbitQ, decide_eq_decide] at hsb
      by_cases hDL : o2detleft pa pb pc < 0
      · have hDR : ¬ o2detright pa pb pc < 0 := fun hc => hsb (iff_of_true hDL hc)
        have hXneg : X < 0 := hdl.lt_iff.mp hDL
        have hZnn : 0 ≤ Z := le_of_not_lt (fun hc => hDR (hdr.lt_iff.mpr hc))
        exact sameSign_of_neg (by linarith [le_of_not_lt hDR]) (by linarith)
      · have hDR : o2detright pa pb pc < 0 := by
          by_contra hc
          exact hsb (iff_of_false hDL hc)
        have hXnn : 0 ≤ X := le_of_not_lt (fun hc => hDL (hdl.lt_iff.mpr hc))
        have hZneg : Z < 0 := hdr.lt_iff.mp hDR
        exact sameSign_of_pos (by linarith [le_of_not_lt hDL]) (by linarith)
    · have hXz : X = 0 := hdl.2.mp hz
      rcases lt_trichotomy (o2detright pa pb pc) 0 with hr | hr | hr
      · exact sameSign_of_pos (by linarith) (by have := hdr.lt_iff.mp hr; linarith)
      · exact sameSign_of_zero (by rw [hz, hr, sub_zero]) (by rw [hXz, hdr.2.mp hr, sub_zero])
      · exact sameSign_of_neg (by linarith) (by have := hdr.1.mp hr; linarith)
    · have hZz : Z = 0 := hdr.2.mp hz
      rcases lt_trichotomy (o2detleft pa pb pc) 0 with hl | hl | hl
      · exact sameSign_of_neg (by linarith) (by have := hdl.lt_iff.mp hl; linarith)
      · exact sameSign_of_zero (by rw [hz, hl, sub_zero]) (by rw [hZz, hdl.2.mp hl, sub_zero])
      · exact sameSign_of_pos (by linarith) (by have := hdl.1.mp hl; linarith)
  exact key

/-! Concrete inputs used by the claim theorems, witnesses, and
counterexamples.  All coordinates are exactly representable binary64
values. -/

/-- `2⁻⁸⁰`: a tiny exactly-representable perturbation. -/
def tinyQ : ℚ := qmk 1 (zpow2 80)

/-- First point of the coplanar orient3d input (plane `z = x`). -/
def cpA : P3 := (1, 1, 1)

/-- Second point of the coplanar orient3d input. -/
def cpB : P3 := (2, 1, 2)

/-- Third point of the coplanar orient3d input. -/
def cpC : P3 := (3, tinyQ, 3)

/-- Fourth point of the coplanar orient3d input.  Subtracting its `y`
coordinate `2⁻⁸⁰` from the others' `y = 1` rounds, so the centered
coordinates have nonzero tails and the adaptive evaluator escalates to
its final stage. -/
def cpD : P3 := (0, tinyQ, 0)

/-- orient2d fast-stage input: `(1 + 2⁻⁵², -1)`. -/
def fsA : P2 := (qmk (zpow2 52 + 1) (zpow2 52), -1)

/-- orient2d fast-stage input: `(1, 1 + 2⁻⁵²)`. -/
def fsB : P2 := (1, qmk (zpow2 52 + 1) (zpow2 52))

/-- orient2d fast-stage input: the origin. -/
def fsC : P2 := (0, 0)

/-- Exactly cocircular inputs (on `x² + y² = 1 + 2⁻¹⁶⁰`) with nonzero
centered-coordinate tails: `(1, 2⁻⁸⁰)`. -/
def ccA : P2 := (1, tinyQ)

/-- Cocircular input `(2⁻⁸⁰, 1)`. -/
def ccB : P2 := (tinyQ, 1)

/-- Cocircular input `(-1, -2⁻⁸⁰)`. -/
def ccC : P2 := (-1, qmk (-1) (zpow2 80))

/-- Cocircular input `(-2⁻⁸⁰, -1)`. -/
def ccD : P2 := (qmk (-1) (zpow2 80), -1)

/-- Near-cocircular incircle input: `ccC` with its `y` coordinate moved
off the circle by `-2⁻⁹⁰`. -/
def icxC : P2 := (-1, qmk (-(zpow2 10 + 1)) (zpow2 90))

/-- Exactly cospherical inputs (on `x² + y² + z² = 1 + 2⁻¹⁶⁰`) with
nonzero centered-coordinate tails. -/
def csA : P3 := (1, tinyQ, 0)

/-- Cospherical input `(0, 2⁻⁸⁰, 1)`. -/
def csB : P3 := (0, tinyQ, 1)

/-- Cospherical input `(-1, 2⁻⁸⁰, 0)`. -/
def csC : P3 := (-1, tinyQ, 0)

/-- Cospherical input `(0, 2⁻⁸⁰, -1)`. -/
def csD : P3 := (0, tinyQ, -1)

/-- Cospherical input `(2⁻⁸⁰, 1, 0)`. -/
def csE : P3 := (tinyQ, 1, 0)

/-- Stage-C orient2d input `(1 + 2⁻⁵², 1 - 2⁻⁵² - 2⁻⁵³)` whose exact
determinant `3·2⁻⁵³ + 3·2⁻¹⁰⁵` is not a binary64 value. -/
def tzA : P2 := (qmk (zpow2 52 + 1) (zpow2 52), qmk (zpow2 53 - 3) (zpow2 53))

/-- Stage-C orient2d input `(1 + 2⁻⁵², 1)`. -/
def tzB : P2 := (qmk (zpow2 52 + 1) (zpow2 52), 1)

/-- Stage-C orient2d input: the origin (so every `MinusTail` is zero). -/
def tzC : P2 := (0, 0)

/-! The claim theorems. -/

/-- Claim C1 (refuted; code bug): on the exactly coplanar input
`cpA cpB cpC cpD` the adaptive orient3d evaluator returns the strictly
negative value `-18·2⁻⁸⁰` while the exact evaluator returns `0`, so the
sign of the adaptive evaluator does not equal the sign of the exact
evaluator on the same (finite) input.  The root cause is the missing
negation in `TwoTwoDiffZeroCheck` (see C4), which adaptive::orient3d's
final stage uses while exact::orient3d does not. -/
theorem c1_orient3d_sign_mismatch :
    adaptiveOrient3d cpA cpB cpC cpD < 0 ∧ exactOrient3d cpA cpB cpC cpD = 0 :=
  ⟨by decide, by decide⟩

/-- Claim C4 (refuted; code bug): `TwoTwoDiff(0, 1, 1, 1)` represents the
exact value `0·1 - 1·1 = -1`, but the zero-checking variant
`TwoTwoDiffZeroCheck(0, 1, 1, 1)` takes its `ax == 0` branch and returns
the expansion of `+ay·bx = +1` instead of `-(ay·bx) = -1`: the fallback
drops the required negation, so the two evaluators do not represent the
same real value. -/
theorem c4_zero_check_drops_negation :
    expValue (twoTwoDiff 0 1 1 1) = -1 ∧
    expValue (twoTwoDiffZeroCheck 0 1 1 1) = 1 :=
  ⟨by decide, by decide⟩

/-- Claim C5, amended part (proved): for `incircle` and `insphere`, when
all three certified error-bound tests fail and the all-tails-zero early
exit does not apply, the adaptive evaluator returns exactly the value of
the corresponding exact evaluator (the final stage literally delegates). -/
theorem c5_final_stage_delegation :
    (∀ pa pb pc pd : P2, ¬ icTestA pa pb pc pd → ¬ icTestB pa pb pc pd →
        ¬ icTailsZero pa pb pc pd → ¬ icTestC pa pb pc pd →
        adaptiveIncircle pa pb pc pd = exactIncircle pa pb pc pd) ∧
    (∀ pa pb pc pd pe : P3, ¬ spTestA pa pb pc pd pe → ¬ spTestB pa pb pc pd pe →
        ¬ spTailsZero pa pb pc pd pe → ¬ spTestC pa pb pc pd pe →
        adaptiveInsphere pa pb pc pd pe = exactInsphere pa pb pc pd pe) := by
  constructor
  · intro pa pb pc pd h1 h2 h3 h4
    rw [adaptiveIncircle, if_neg h1, if_neg h2, if_neg h3, if_neg h4]
  · intro pa pb pc pd pe h1 h2 h3 h4
    rw [adaptiveInsphere, if_neg h1, if_neg h2, if_neg h3, if_neg h4]

/-- Witness for C5's amended theorem: the exactly cocircular input
`ccA ccB ccC ccD` and the exactly cospherical input `csA … csE` fail all
three certified tests, have nonzero tails, and therefore reach the
delegating final stage. -/
theorem c5_delegation_witness :
    adaptiveIncircle ccA ccB ccC ccD = exactIncircle ccA ccB ccC ccD ∧
    adaptiveInsphere csA csB csC csD csE = exactInsphere csA csB csC csD csE :=
  ⟨c5_final_stage_delegation.1 ccA ccB ccC ccD (by decide) (by decide) (by decide) (by decide),
   c5_final_stage_delegation.2 csA csB csC csD csE (by decide) (by decide) (by decide) (by decide)⟩

/-- Counterexample to C5 as stated: adaptive::orient3d's final stage does
not delegate to exact::orient3d.  At `cpA cpB cpC cpD` all three
error-bound tests fail and not all tails are zero, yet the value returned
by the adaptive evaluator differs from the exact evaluator's value. -/
theorem c5_orient3d_final_stage_not_exact :
    ¬ o3TestA cpA cpB cpC cpD ∧ ¬ o3TestB cpA cpB cpC cpD ∧
    ¬ o3TailsZero cpA cpB cpC cpD ∧ ¬ o3TestC cpA cpB cpC cpD ∧
    adaptiveOrient3d cpA cpB cpC cpD ≠ exactOrient3d cpA cpB cpC cpD :=
  ⟨by decide, by decide, by decide, by decide, by decide⟩

/-- Claim C6, amended part (proved): in adaptive::orient2d's fast stage,
if the sign bits of the two leading partial products `detleft`/`detright`
disagree or either is exactly zero, the evaluator returns the plain
floating-point determinant immediately, and that value has the same sign
(negative, zero, or positive) as the exact determinant — though, per the
counterexample, not necessarily the same value. -/
theorem c6_orient2d_early_return_sign (pa pb pc : P2) (h : o2dEarly pa pb pc) :
    adaptiveOrient2d pa pb pc = o2detFast pa pb pc ∧
    (0 < adaptiveOrient2d pa pb pc ↔ 0 < orient2dRealDet pa pb pc) ∧
    (adaptiveOrient2d pa pb pc = 0 ↔ orient2dRealDet pa pb pc = 0) ∧
    (adaptiveOrient2d pa pb pc < 0 ↔ orient2dRealDet pa pb pc < 0) := by
  have heq : adaptiveOrient2d pa pb pc = o2detFast pa pb pc := by
    rw [adaptiveOrient2d, if_pos h]
  have hss := o2detFast_sameSign_of_early pa pb pc h
  rw [heq]
  exact ⟨rfl, hss.1, hss.2, hss.lt_iff⟩

/-- Witness for C6's amended theorem at the concrete input
`(1,0), (0,1), (0,0)` (where `detright` is exactly zero). -/
theorem c6_early_return_witness :
    o2dEarly (1, 0) (0, 1) fsC ∧
    (0 < adaptiveOrient2d (1, 0) (0, 1) fsC ↔ 0 < orient2dRealDet (1, 0) (0, 1) fsC) :=
  ⟨by decide, ((c6_orient2d_early_return_sign (1, 0) (0, 1) fsC (by decide)).2).1⟩

/-- Counterexample to C6 as stated: (i) at `fsA fsB fsC` orient2d's fast
stage takes the early return (the partial products have opposite signs)
but the returned floating-point determinant `2 + 2⁻⁵¹` does not equal the
exact determinant `2 + 2⁻⁵¹ + 2⁻¹⁰⁴`; (ii) adaptive::incircle has no such
early return at all: at `ccA ccB icxC ccD` its two leading partial
products `bdxcdy`/`cdxbdy` have opposite sign bits, yet the evaluator
does not return the plain floating-point determinant. -/
theorem c6_fast_stage_not_exact :
    (o2dEarly fsA fsB fsC ∧
      adaptiveOrient2d fsA fsB fsC ≠ orient2dRealDet fsA fsB fsC) ∧
    (signbitQ (icBdxcdy ccB icxC ccD) ≠ signbitQ (icCdxbdy ccB icxC ccD) ∧
      adaptiveIncircle ccA ccB icxC ccD ≠ icDetFast ccA ccB icxC ccD) :=
  ⟨⟨by decide, by decide⟩, ⟨by decide, by decide⟩⟩

/-- Claim C7, amended part (proved): in the tail-correction stage of each
adaptive predicate, if every `MinusTail` of the coordinate subtractions is
exactly zero, the evaluator returns the stage-2 estimate unchanged.  (The
claim's further assertion that this estimate equals the exact determinant
is refuted by the counterexample.) -/
theorem c7_tails_zero_returns_estimate :
    (∀ pa pb pc : P2, ¬ o2dEarly pa pb pc → ¬ o2dTestA pa pb pc → ¬ o2dTestB pa pb pc →
        o2dTailsZero pa pb pc → adaptiveOrient2d pa pb pc = o2detB pa pb pc) ∧
    (∀ pa pb pc pd : P2, ¬ icTestA pa pb pc pd → ¬ icTestB pa pb pc pd →
        icTailsZero pa pb pc pd → adaptiveIncircle pa pb pc pd = icDetB pa pb pc pd) ∧
    (∀ pa pb pc pd : P3, ¬ o3TestA pa pb pc pd → ¬ o3TestB pa pb pc pd →
        o3TailsZero pa pb pc pd → adaptiveOrient3d pa pb pc pd = o3DetB pa pb pc pd) ∧
    (∀ pa pb pc pd pe : P3, ¬ spTestA pa pb pc pd pe → ¬ spTestB pa pb pc pd pe →
        spTailsZero pa pb pc pd pe →
        adaptiveInsphere pa pb pc pd pe = spDetB pa pb pc pd pe) := by
  refine ⟨?_, ?_, ?_, ?_⟩
  · intro pa pb pc h1 h2 h3 h4
    rw [adaptiveOrient2d, if_neg h1, if_neg h2, if_neg h3, if_pos h4]
  · intro pa pb pc pd h1 h2 h3
    rw [adaptiveIncircle, if_neg h1, if_neg h2, if_pos h3]
  · intro pa pb pc pd h1 h2 h3
    rw [adaptiveOrient3d, if_neg h1, if_neg h2, if_pos h3]
  · intro pa pb pc pd pe h1 h2 h3
    rw [adaptiveInsphere, if_neg h1, if_neg h2, if_pos h3]

/-- Witness for C7's amended theorem: concrete degenerate inputs with all
tails zero reaching the tail-correction stage, for each of the four
predicates. -/
theorem c7_tails_zero_witness :
    adaptiveOrient2d (1, 1) (2, 2) tzC = o2detB (1, 1) (2, 2) tzC ∧
    adaptiveIncircle (3, 4) (4, 3) (5, 0) (0, 5) = icDetB (3, 4) (4, 3) (5, 0) (0, 5) ∧
    adaptiveOrient3d (1, 0, 1) (0, 1, 1) (1, 1, 2) (0, 0, 0) =
      o3DetB (1, 0, 1) (0, 1, 1) (1, 1, 2) (0, 0, 0) ∧
    adaptiveInsphere (2, 0, 0) (0, 2, 0) (0, 0, 2) (2, 2, 0) (0, 0, 0) =
      spDetB (2, 0, 0) (0, 2, 0) (0, 0, 2) (2, 2, 0) (0, 0, 0) :=
  ⟨c7_tails_zero_returns_estimate.1 _ _ _ (by decide) (by decide) (by decide) (by decide),
   c7_tails_zero_returns_estimate.2.1 _ _ _ _ (by decide) (by decide) (by decide),
   c7_tails_zero_returns_estimate.2.2.1 _ _ _ _ (by decide) (by decide) (by decide),
   c7_tails_zero_returns_estimate.2.2.2 _ _ _ _ _ (by decide) (by decide) (by decide)⟩

/-- Counterexample to C7 as stated: at `tzA tzB tzC` the orient2d
evaluator reaches the tail-correction stage with every tail exactly zero
and returns the stage-2 estimate (`3·2⁻⁵³ + 2⁻¹⁰³`), but that estimate
does not equal the exact determinant (`3·2⁻⁵³ + 3·2⁻¹⁰⁵`, not a binary64
value): `Expansion::estimate` itself rounds. -/
theorem c7_stage2_estimate_not_exact :
    ¬ o2dEarly tzA tzB tzC ∧ ¬ o2dTestA tzA tzB tzC ∧ ¬ o2dTestB tzA tzB tzC ∧
    o2dTailsZero tzA tzB tzC ∧
    adaptiveOrient2d tzA tzB tzC ≠ orient2dRealDet tzA tzB tzC :=
  ⟨by decide, by decide, by decide, by decide, by decide⟩

/-- Claim C9 (refuted; code bug): swapping the first two points of the
orient3d input `cpA cpB cpC cpD` does not flip the sign of the adaptive
result: both orders return the same strictly negative value `-18·2⁻⁸⁰`
(the exact determinant is 0, and with a correct final stage both orders
would return 0).  Root cause: the `TwoTwoDiffZeroCheck` bug of C4. -/
theorem c9_orient3d_swap_no_sign_flip :
    adaptiveOrient3d cpB cpA cpC cpD ≠ qneg (adaptiveOrient3d cpA cpB cpC cpD) ∧
    adaptiveOrient3d cpB cpA cpC cpD < 0 :=
  ⟨by decide, by decide⟩

/-- Claim C10 (proved): every expansion-producing operation emits at most
as many components as the static capacity of its output type, so
`push_back` never stores past the end of the backing array:
`ExpansionSum` emits at most `n + m` components (capacity `N + M` of
`operator+`), `ScaleExpansion` at most `2n` (capacity `2N` of
`operator*`), `TwoTwoDiff` and its zero-checking variant and `ThreeProd`
at most 4, and `Plus`/`Mult` at most 2. -/
theorem c10_component_count_bounds :
    (∀ e f : List ℚ, (expansionSum e f).length ≤ e.length + f.length) ∧
    (∀ (e : List ℚ) (b : ℚ), (scaleExpansion e b).length ≤ 2 * e.length) ∧
    (∀ ax byy ay bxx : ℚ, (twoTwoDiff ax byy ay bxx).length ≤ 4) ∧
    (∀ a b : ℚ, (plusE a b).length ≤ 2 ∧ (multE a b).length ≤ 2) ∧
    (∀ a b c : ℚ, (threeProd a b c).length ≤ 4) ∧
    (∀ ax byy ay bxx : ℚ, (twoTwoDiffZeroCheck ax byy ay bxx).length ≤ 4) :=
  ⟨expansionSum_length, scaleExpansion_length, twoTwoDiff_length,
   fun a b => ⟨plusE_length a b, multE_length a b⟩,
   threeProd_length, twoTwoDiffZeroCheck_length⟩

/-! Supporting observations (not claim theorems): the exact evaluators
return exactly 0 on sample exactly-degenerate inputs, and the TwoSum /
TwoProduct error-free transformations hold on sample binary64 pairs. -/

/-- The exact evaluators return exactly `0` on concrete degenerate
configurations: collinear, coplanar, cocircular, cospherical. -/
theorem exact_degenerate_zero_examples :
    exactOrient2d (0, 0) (1, 1) (2, 2) = 0 ∧
    exactOrient3d (1, 0, 1) (0, 1, 1) (1, 1, 2) (0, 0, 0) = 0 ∧
    exactIncircle (3, 4) (4, 3) (5, 0) (0, 5) = 0 ∧
    exactInsphere (2, 0, 0) (0, 2, 0) (0, 0, 2) (2, 2, 0) (0, 0, 0) = 0 :=
  ⟨by decide, by decide, by decide, by decide⟩

/-- Sample error-free-transformation identities: on these binary64 pairs,
`a + b = fl(a+b) + PlusTail(a, b, fl(a+b))` and
`a·b = fl(a·b) + MultTail(a, b, fl(a·b))` hold exactly. -/
theorem eft_examples :
    (qadd (qmk (zpow2 52 + 1) (zpow2 52)) tinyQ =
      qadd (fadd (qmk (zpow2 52 + 1) (zpow2 52)) tinyQ)
        (plusTail (qmk (zpow2 52 + 1) (zpow2 52)) tinyQ
          (fadd (qmk (zpow2 52 + 1) (zpow2 52)) tinyQ))) ∧
    (qmul (qmk (zpow2 52 + 1) (zpow2 52)) (qmk (zpow2 52 + 1) (zpow2 52)) =
      qadd (fmul (qmk (zpow2 52 + 1) (zpow2 52)) (qmk (zpow2 52 + 1) (zpow2 52)))
        (multTail (qmk (zpow2 52 + 1) (zpow2 52)) (qmk (zpow2 52 + 1) (zpow2 52))
          (fmul (qmk (zpow2 52 + 1) (zpow2 52)) (qmk (zpow2 52 + 1) (zpow2 52))))) :=
  ⟨by decide, by decide⟩

/-! Representable binary64 values (53-bit significand, unbounded
exponent) and the rounding facts needed for Knuth's TwoSum identity
(claim C8): `roundQ` is a nearest rounding, it fixes representable
values, it preserves power-of-two grids, and its error on a sum of two
representables is representable. -/

/-- `q` is a binary64 value in the unbounded-exponent model: an integer
significand of magnitude below `2^53` times a power of two. -/
def IsRepr (q : ℚ) : Prop :=
  ∃ m e : ℤ, |m| < 2 ^ 53 ∧ q = (m : ℚ) * (2 : ℚ) ^ e

/-- `q` is an integer multiple of `2^g`. -/
def MultOf (g : ℤ) (q : ℚ) : Prop := ∃ j : ℤ, q = (j : ℚ) * (2 : ℚ) ^ g

theorem multOf_add {g : ℤ} {x y : ℚ} (hx : MultOf g x) (hy : MultOf g y) :
    MultOf g (x + y) := by
  obtain ⟨i, rfl⟩ := hx
  obtain ⟨j, rfl⟩ := hy
  exact ⟨i + j, by push_cast; ring⟩

theorem multOf_neg {g : ℤ} {x : ℚ} (hx : MultOf g x) : MultOf g (-x) := by
  obtain ⟨i, rfl⟩ := hx
  exact ⟨-i, by push_cast; ring⟩

theorem multOf_sub {g : ℤ} {x y : ℚ} (hx : MultOf g x) (hy : MultOf g y) :
    MultOf g (x - y) := by
  have := multOf_add hx (multOf_neg hy)
  rwa [← sub_eq_add_neg] at this

theorem multOf_zero (g : ℤ) : MultOf g 0 := ⟨0, by push_cast; ring⟩

theorem multOf_mono {g h : ℤ} {x : ℚ} (hle : h ≤ g) (hx : MultOf g x) :
    MultOf h x := by
  obtain ⟨i, rfl⟩ := hx
  refine ⟨i * 2 ^ (g - h).toNat, ?_⟩
  push_cast
  rw [mul_assoc, ← zpow_natCast (2 : ℚ) (g - h).toNat,
    Int.toNat_of_nonneg (by omega), ← zpow_add₀ (by norm_num : (2:ℚ) ≠ 0)]
  congr 2
  omega

theorem isRepr_zero : IsRepr 0 := ⟨0, 0, by norm_num, by norm_num⟩

theorem isRepr_neg {q : ℚ} (h : IsRepr q) : IsRepr (-q) := by
  obtain ⟨m, e, hm, rfl⟩ := h
  exact ⟨-m, e, by rwa [abs_neg], by push_cast; ring⟩

theorem isRepr_abs {q : ℚ} (h : IsRepr q) : IsRepr |q| := by
  rcases abs_choice q with h1 | h1
  · rwa [h1]
  · rw [h1]; exact isRepr_neg h

/-- A multiple of `2^g` of magnitude at most `2^(g+53)` is representable
(the extreme magnitude `2^(g+53)` itself is the power of two
`2^52 · 2^(g+1)`). -/
theorem isRepr_of_multOf {g : ℤ} {v : ℚ}
    (hm : MultOf g v) (hb : |v| ≤ (2:ℚ) ^ (g + 53)) : IsRepr v := by
  obtain ⟨j, rfl⟩ := hm
  have hgpos : (0:ℚ) < (2:ℚ) ^ g := zpow_pos (by norm_num) g
  have hj : |(j:ℚ)| ≤ (2:ℚ) ^ (53:ℤ) := by
    rw [abs_mul, abs_of_pos hgpos] at hb
    have h2 : (2:ℚ) ^ (g + 53) = (2:ℚ) ^ (53:ℤ) * (2:ℚ) ^ g := by
      rw [← zpow_add₀ (by norm_num : (2:ℚ) ≠ 0)]; congr 1; ring
    rw [h2] at hb
    exact le_of_mul_le_mul_right hb hgpos
  have hjz : |j| ≤ 2 ^ 53 := by
    have : ((|j| : ℤ) : ℚ) ≤ ((2 ^ 53 : ℤ) : ℚ) := by
      push_cast
      rw [show ((53:ℤ)) = ((53:ℕ):ℤ) by norm_num, zpow_natCast] at hj
      exact_mod_cast hj
    exact_mod_cast this
  rcases lt_or_eq_of_le hjz with hlt | heq
  · exact ⟨j, g, hlt, rfl⟩
  · rcases abs_eq (by positivity : (0:ℤ) ≤ 2 ^ 53) |>.mp heq with h1 | h1
    · refine ⟨2 ^ 52, g + 1, by norm_num, ?_⟩
      rw [h1, zpow_add₀ (by norm_num : (2:ℚ) ≠ 0)]
      push_cast
      ring
    · refine ⟨-(2 ^ 52), g + 1, by norm_num, ?_⟩
      rw [h1, zpow_add₀ (by norm_num : (2:ℚ) ≠ 0)]
      push_cast
      ring

/-- On nonnegative rationals the executable floor agrees with `⌊·⌋`. -/
theorem qfloorN_eq_floor (y : ℚ) (hy : 0 ≤ y) : (qfloorN y : ℤ) = ⌊y⌋ := by
  rw [qfloorN, Rat.floor_def]
  have hnum : 0 ≤ y.num := Rat.num_nonneg.mpr hy
  rw [show y.num = ((y.num.toNat : ℕ) : ℤ) by omega]
  exact_mod_cast (Int.ofNat_ediv y.num.toNat y.den).symm

theorem roundY_eq (q : ℚ) : roundY q = |q| * (2:ℚ) ^ (52 - expoQ q) := by
  rw [roundY, qmul_eq, qabs_eq, pow2Z_eq]

theorem roundY_nonneg (q : ℚ) : 0 ≤ roundY q := by
  rw [roundY_eq]
  positivity

/-- The scaled significand lies in the binade `[2^52, 2^53)`. -/
theorem roundY_bounds (q : ℚ) (hq : q ≠ 0) :
    (2:ℚ) ^ (52:ℤ) ≤ roundY q ∧ roundY q < (2:ℚ) ^ (53:ℤ) := by
  obtain ⟨h1, h2⟩ := expoQ_bounds q hq
  have hpow : (0:ℚ) < (2:ℚ) ^ (52 - expoQ q) := zpow_pos (by norm_num) _
  rw [roundY_eq]
  constructor
  · calc (2:ℚ) ^ (52:ℤ) = (2:ℚ) ^ expoQ q * (2:ℚ) ^ (52 - expoQ q) := by
          rw [← zpow_add₀ (by norm_num : (2:ℚ) ≠ 0)]; congr 1; ring
    _ ≤ |q| * (2:ℚ) ^ (52 - expoQ q) := by
          exact mul_le_mul_of_nonneg_right h1 hpow.le
  · calc |q| * (2:ℚ) ^ (52 - expoQ q)
        < (2:ℚ) ^ (expoQ q + 1) * (2:ℚ) ^ (52 - expoQ q) :=
          mul_lt_mul_of_pos_right h2 hpow
    _ = (2:ℚ) ^ (53:ℤ) := by
          rw [← zpow_add₀ (by norm_num : (2:ℚ) ≠ 0)]; congr 1; ring

/-- Floor bracketing of the truncated significand. -/
theorem roundN_bounds (q : ℚ) :
    ((roundN q : ℚ) ≤ roundY q ∧ roundY q < (roundN q : ℚ) + 1) := by
  have hy : 0 ≤ roundY q := roundY_nonneg q
  have hfl := qfloorN_eq_floor (roundY q) hy
  constructor
  · have := Int.floor_le (roundY q)
    rw [← hfl] at this
    exact_mod_cast this
  · have := Int.lt_floor_add_one (roundY q)
    rw [← hfl] at this
    exact_mod_cast this

/-- The chosen significand is the truncation or its successor, on the
correct side of the midpoint. -/
theorem roundM_spec (q : ℚ) :
    (roundM q = roundN q ∧ roundY q - roundN q ≤ 1/2) ∨
    (roundM q = roundN q + 1 ∧ 1/2 ≤ roundY q - roundN q) := by
  have hhalf : qmk 1 2 = (1/2 : ℚ) := by rw [qmk_eq]; norm_num
  rw [roundM]
  simp only [qsub_eq, qofN_eq, hhalf]
  split
  · next h => exact Or.inl ⟨rfl, le_of_lt h⟩
  · next h =>
    split
    · next h2 => exact Or.inr ⟨rfl, le_of_lt h2⟩
    · next h2 =>
      have heq : roundY q - (roundN q : ℚ) = 1/2 := le_antisymm (not_lt.mp h2) (not_lt.mp h)
      split
      · exact Or.inl ⟨rfl, le_of_eq heq⟩
      · exact Or.inr ⟨rfl, ge_of_eq heq⟩

/-- An integer that is the floor or ceiling of `y` on the nearer side of
the midpoint is at least as close to `y` as any integer. -/
theorem nearest_int_abs (y : ℚ) (n : ℤ) (h1 : (n:ℚ) ≤ y) (h2 : y < n + 1)
    (m : ℤ) (hm : (m = n ∧ y - n ≤ 1/2) ∨ (m = n + 1 ∧ 1/2 ≤ y - n))
    (j : ℤ) : |(m:ℚ) - y| ≤ |(j:ℚ) - y| := by
  have hj : j ≤ n ∨ n + 1 ≤ j := by omega
  have hjle : j ≤ n → (j:ℚ) ≤ (n:ℚ) := fun h => by exact_mod_cast h
  have hjge : n + 1 ≤ j → ((n:ℚ)) + 1 ≤ (j:ℚ) := fun h => by exact_mod_cast h
  rcases hm with ⟨hm1, hr⟩ | ⟨hm1, hr⟩
  · rw [hm1, abs_of_nonpos (by linarith)]
    rcases hj with hj | hj
    · have := hjle hj
      rw [abs_of_nonpos (by linarith)]
      linarith
    · have := hjge hj
      rw [abs_of_nonneg (by linarith)]
      linarith
  · have hcast : ((n + 1 : ℤ) : ℚ) = (n:ℚ) + 1 := by push_cast; ring
    rw [hm1, hcast, abs_of_nonneg (by linarith)]
    rcases hj with hj | hj
    · have := hjle hj
      rw [abs_of_nonpos (by linarith)]
      linarith
    · have := hjge hj
      rw [abs_of_nonneg (by linarith)]
      linarith

/-- Value of `roundQ` on positives: chosen significand times the ulp. -/
theorem roundQ_pos_val (q : ℚ) (hq : 0 < q) :
    roundQ q = (roundM q : ℚ) * (2:ℚ) ^ (expoQ q - 52) := by
  rw [roundQ, if_neg (ne_of_gt hq), if_neg (not_lt.mpr hq.le), qmul_eq, qofN_eq, pow2Z_eq]
/-- On positive inputs, `roundQ` is at least as close to its input as
any multiple of the ulp `2^(expoQ q - 52)`. -/
theorem roundQ_nearest_grid_pos (q : ℚ) (hq : 0 < q) (j : ℤ) :
    |roundQ q - q| ≤ |(j:ℚ) * (2:ℚ) ^ (expoQ q - 52) - q| := by
  set e := expoQ q with he
  have hG : (0:ℚ) < (2:ℚ) ^ (e - 52) := zpow_pos (by norm_num) _
  have hYq : roundY q = q * (2:ℚ) ^ (52 - e) := by
    rw [roundY_eq, abs_of_pos hq, he]
  have hqY : q = roundY q * (2:ℚ) ^ (e - 52) := by
    rw [hYq, mul_assoc, ← zpow_add₀ (by norm_num : (2:ℚ) ≠ 0)]
    norm_num
  have key : ∀ z : ℚ, |z * (2:ℚ) ^ (e - 52) - q| = |z - roundY q| * (2:ℚ) ^ (e - 52) := by
    intro z
    conv_lhs => rw [hqY]
    rw [← sub_mul, abs_mul, abs_of_pos hG]
  obtain ⟨hn1, hn2⟩ := roundN_bounds q
  have hside : ((roundM q : ℤ) = ((roundN q : ℕ) : ℤ) ∧
        roundY q - ((roundN q : ℕ) : ℤ) ≤ 1/2) ∨
      ((roundM q : ℤ) = ((roundN q : ℕ) : ℤ) + 1 ∧
        1/2 ≤ roundY q - ((roundN q : ℕ) : ℤ)) := by
    rcases roundM_spec q with ⟨h1, h2⟩ | ⟨h1, h2⟩
    · exact Or.inl ⟨by exact_mod_cast h1, by push_cast; linarith⟩
    · exact Or.inr ⟨by exact_mod_cast h1, by push_cast; linarith⟩
  have hnear := nearest_int_abs (roundY q) ((roundN q : ℕ) : ℤ) (by push_cast; exact_mod_cast hn1)
    (by push_cast; exact_mod_cast hn2) ((roundM q : ℕ) : ℤ) hside j
  rw [roundQ_pos_val q hq, ← he, key ((roundM q : ℚ)), key ((j:ℚ))]
  apply mul_le_mul_of_nonneg_right _ hG.le
  have hc1 : (((roundM q : ℕ) : ℤ) : ℚ) = ((roundM q : ℕ) : ℚ) := by push_cast; rfl
  rw [hc1] at hnear
  exact hnear

/-- On positive inputs the rounding error is at most half an ulp. -/
theorem roundQ_half_ulp_pos (q : ℚ) (hq : 0 < q) :
    |roundQ q - q| ≤ (2:ℚ) ^ (expoQ q - 53) := by
  set e := expoQ q with he
  have hG : (0:ℚ) < (2:ℚ) ^ (e - 52) := zpow_pos (by norm_num) _
  have hYq : roundY q = q * (2:ℚ) ^ (52 - e) := by
    rw [roundY_eq, abs_of_pos hq, he]
  have hqY : q = roundY q * (2:ℚ) ^ (e - 52) := by
    rw [hYq, mul_assoc, ← zpow_add₀ (by norm_num : (2:ℚ) ≠ 0)]
    norm_num
  obtain ⟨hn1, hn2⟩ := roundN_bounds q
  have hMY : |((roundM q : ℕ) : ℚ) - roundY q| ≤ 1/2 := by
    rcases roundM_spec q with ⟨h1, h2⟩ | ⟨h1, h2⟩
    · rw [h1, abs_of_nonpos (by linarith)]
      linarith
    · rw [h1, abs_of_nonneg (by push_cast; linarith)]
      push_cast
      linarith
  have key : ∀ z : ℚ, |z * (2:ℚ) ^ (e - 52) - q| = |z - roundY q| * (2:ℚ) ^ (e - 52) := by
    intro z
    conv_lhs => rw [hqY]
    rw [← sub_mul, abs_mul, abs_of_pos hG]
  have hstep : |roundQ q - q| = |((roundM q : ℕ) : ℚ) - roundY q| * (2:ℚ) ^ (e - 52) := by
    rw [roundQ_pos_val q hq, ← he, key]
  rw [hstep]
  calc |((roundM q : ℕ) : ℚ) - roundY q| * (2:ℚ) ^ (e - 52)
      ≤ (1/2) * (2:ℚ) ^ (e - 52) := mul_le_mul_of_nonneg_right hMY hG.le
  _ = (2:ℚ) ^ (e - 53) := by
      rw [show (e - 53) = (-1) + (e - 52) by ring,
        zpow_add₀ (by norm_num : (2:ℚ) ≠ 0)]
      norm_num

theorem expoQ_neg (q : ℚ) : expoQ (-q) = expoQ q := by
  rw [expoQ, expoQ, Rat.neg_num, Int.natAbs_neg, Rat.neg_den, qabs_eq, qabs_eq, abs_neg]

theorem roundY_neg (q : ℚ) : roundY (-q) = roundY q := by
  rw [roundY_eq, roundY_eq, abs_neg, expoQ_neg]

theorem roundN_neg (q : ℚ) : roundN (-q) = roundN q := by
  rw [roundN, roundN, roundY_neg]

theorem roundM_neg (q : ℚ) : roundM (-q) = roundM q := by
  rw [roundM, roundM, roundY_neg, roundN_neg]

theorem roundQ_neg_eq (q : ℚ) : roundQ (-q) = -roundQ q := by
  rcases lt_trichotomy q 0 with hq | hq | hq
  · have h1 : (0:ℚ) < -q := neg_pos.mpr hq
    rw [roundQ, roundQ, if_neg (ne_of_gt h1), if_neg (not_lt.mpr h1.le),
      if_neg (ne_of_lt hq), if_pos hq, qneg_eq, neg_neg, roundM_neg, expoQ_neg]
  · rw [hq]
    simp [roundQ]
  · have h1 : -q < 0 := neg_lt_zero.mpr hq
    rw [roundQ, roundQ, if_neg (ne_of_lt h1), if_pos h1,
      if_neg (ne_of_gt hq), if_neg (not_lt.mpr hq.le), qneg_eq, roundM_neg, expoQ_neg]

/-- `roundQ` is at least as close to its input as any multiple of the
ulp `2^(expoQ q - 52)`. -/
theorem roundQ_nearest_grid (q : ℚ) (hq : q ≠ 0) (j : ℤ) :
    |roundQ q - q| ≤ |(j:ℚ) * (2:ℚ) ^ (expoQ q - 52) - q| := by
  rcases lt_or_gt_of_ne hq with hneg | hpos
  · have h := roundQ_nearest_grid_pos (-q) (neg_pos.mpr hneg) (-j)
    rw [roundQ_neg_eq, expoQ_neg] at h
    calc |roundQ q - q| = |-roundQ q - -q| := by rw [← abs_neg (roundQ q - q)]; congr 1; ring
    _ ≤ |((-j : ℤ):ℚ) * (2:ℚ) ^ (expoQ q - 52) - -q| := h
    _ = |(j:ℚ) * (2:ℚ) ^ (expoQ q - 52) - q| := by
        rw [← abs_neg ((j:ℚ) * (2:ℚ) ^ (expoQ q - 52) - q)]
        congr 1
        push_cast
        ring
  · exact roundQ_nearest_grid_pos q hpos j

/-- The rounding error is at most half an ulp of the input. -/
theorem roundQ_half_ulp (q : ℚ) (hq : q ≠ 0) :
    |roundQ q - q| ≤ (2:ℚ) ^ (expoQ q - 53) := by
  rcases lt_or_gt_of_ne hq with hneg | hpos
  · have h := roundQ_half_ulp_pos (-q) (neg_pos.mpr hneg)
    rw [roundQ_neg_eq, expoQ_neg] at h
    calc |roundQ q - q| = |-roundQ q - -q| := by rw [← abs_neg (roundQ q - q)]; congr 1; ring
    _ ≤ (2:ℚ) ^ (expoQ q - 53) := h
  · exact roundQ_half_ulp_pos q hpos

/-- The rounded value is an integer multiple of the ulp. -/
theorem roundQ_grid (q : ℚ) (hq : q ≠ 0) : MultOf (expoQ q - 52) (roundQ q) := by
  rcases lt_or_gt_of_ne hq with hneg | hpos
  · have h1 : roundQ q = -roundQ (-q) := by rw [roundQ_neg_eq, neg_neg]
    rw [h1, ← expoQ_neg q]
    exact multOf_neg ⟨((roundM (-q) : ℕ) : ℤ), by
      rw [roundQ_pos_val (-q) (neg_pos.mpr hneg)]
      push_cast
      rfl⟩
  · exact ⟨((roundM q : ℕ) : ℤ), by rw [roundQ_pos_val q hpos]; push_cast; rfl⟩

/-- The chosen significand never exceeds `2^53`. -/
theorem roundM_le (q : ℚ) (hq : q ≠ 0) : roundM q ≤ 2 ^ 53 := by
  have h2 := (roundY_bounds q hq).2
  obtain ⟨hn1, _⟩ := roundN_bounds q
  have hcast : ((2:ℚ) ^ (53:ℤ)) = ((2 ^ 53 : ℕ) : ℚ) := by
    rw [show ((53:ℤ)) = ((53:ℕ):ℤ) by norm_num, zpow_natCast]
    push_cast
    rfl
  have hn : (roundN q : ℚ) < ((2 ^ 53 : ℕ) : ℚ) := by
    rw [← hcast]
    exact lt_of_le_of_lt hn1 h2
  have hnN : roundN q < 2 ^ 53 := by exact_mod_cast hn
  rcases roundM_spec q with ⟨h1, _⟩ | ⟨h1, _⟩ <;> omega

/-- The value returned by `roundQ` is always representable. -/
theorem roundQ_isRepr (q : ℚ) : IsRepr (roundQ q) := by
  by_cases hq : q = 0
  · rw [hq, roundQ_zero]
    exact isRepr_zero
  have habs : |roundQ q| ≤ (2:ℚ) ^ ((expoQ q - 52) + 53) := by
    have hM : ((roundM q : ℕ) : ℚ) ≤ (2:ℚ) ^ (53:ℤ) := by
      rw [show ((53:ℤ)) = ((53:ℕ):ℤ) by norm_num, zpow_natCast]
      exact_mod_cast roundM_le q hq
    have hG : (0:ℚ) < (2:ℚ) ^ (expoQ q - 52) := zpow_pos (by norm_num) _
    have hval : |roundQ q| = ((roundM q : ℕ) : ℚ) * (2:ℚ) ^ (expoQ q - 52) := by
      rcases lt_or_gt_of_ne hq with hneg | hpos
      · have h1 : roundQ q = -roundQ (-q) := by rw [roundQ_neg_eq, neg_neg]
        rw [h1, abs_neg, roundQ_pos_val (-q) (neg_pos.mpr hneg), expoQ_neg, roundM_neg,
          abs_of_nonneg (by positivity)]
      · rw [roundQ_pos_val q hpos, abs_of_nonneg (by positivity)]
    rw [hval]
    calc ((roundM q : ℕ) : ℚ) * (2:ℚ) ^ (expoQ q - 52)
        ≤ (2:ℚ) ^ (53:ℤ) * (2:ℚ) ^ (expoQ q - 52) := mul_le_mul_of_nonneg_right hM hG.le
    _ = (2:ℚ) ^ ((expoQ q - 52) + 53) := by
        rw [← zpow_add₀ (by norm_num : (2:ℚ) ≠ 0)]
        congr 1
        ring
  exact isRepr_of_multOf (roundQ_grid q hq) habs
/-- Doubling a power of two. -/
theorem zpow_two_add_self (x : ℤ) : (2:ℚ) ^ x + (2:ℚ) ^ x = (2:ℚ) ^ (x + 1) := by
  rw [zpow_add₀ (by norm_num : (2:ℚ) ≠ 0), zpow_one]
  ring

/-- Magnitude of a representable value through its significand. -/
theorem repr_bound {m g : ℤ} (hm : |m| < 2 ^ 53) :
    |(m:ℚ) * (2:ℚ) ^ g| ≤ ((2:ℚ) ^ (53:ℤ) - 1) * (2:ℚ) ^ g := by
  rw [abs_mul, abs_of_pos (zpow_pos (by norm_num : (0:ℚ) < 2) g)]
  apply mul_le_mul_of_nonneg_right _ (zpow_pos (by norm_num : (0:ℚ) < 2) g).le
  have h1 : |m| ≤ 2 ^ 53 - 1 := by omega
  have h2 : ((|m| : ℤ) : ℚ) ≤ ((2 ^ 53 - 1 : ℤ) : ℚ) := by exact_mod_cast h1
  rw [Int.cast_abs] at h2
  refine le_trans h2 ?_
  rw [show ((53:ℤ)) = ((53:ℕ):ℤ) by norm_num, zpow_natCast]
  push_cast
  norm_num

theorem repr_bound_lt {m g : ℤ} (hm : |m| < 2 ^ 53) :
    |(m:ℚ) * (2:ℚ) ^ g| < (2:ℚ) ^ (g + 53) := by
  refine lt_of_le_of_lt (repr_bound hm) ?_
  have hg : (0:ℚ) < (2:ℚ) ^ g := zpow_pos (by norm_num) g
  have h1 : ((2:ℚ) ^ (53:ℤ) - 1) < (2:ℚ) ^ (53:ℤ) := by linarith
  calc ((2:ℚ) ^ (53:ℤ) - 1) * (2:ℚ) ^ g
      < (2:ℚ) ^ (53:ℤ) * (2:ℚ) ^ g := mul_lt_mul_of_pos_right h1 hg
  _ = (2:ℚ) ^ (g + 53) := by
      rw [← zpow_add₀ (by norm_num : (2:ℚ) ≠ 0)]
      congr 1
      ring

/-- On positive inputs, `roundQ` is a nearest rounding over all
representable values. -/
theorem roundQ_nearest_pos (q y : ℚ) (hq : 0 < q) (hy : IsRepr y) :
    |roundQ q - q| ≤ |y - q| := by
  obtain ⟨m, t, hm, rfl⟩ := hy
  by_cases ht : expoQ q - 52 ≤ t
  · have hgrid : (m:ℚ) * (2:ℚ) ^ t =
        ((m * 2 ^ (t - (expoQ q - 52)).toNat : ℤ) : ℚ) * (2:ℚ) ^ (expoQ q - 52) := by
      push_cast
      rw [mul_assoc, ← zpow_natCast (2:ℚ) (t - (expoQ q - 52)).toNat,
        Int.toNat_of_nonneg (by omega), ← zpow_add₀ (by norm_num : (2:ℚ) ≠ 0)]
      congr 2
      omega
    rw [hgrid]
    exact roundQ_nearest_grid q (ne_of_gt hq) _
  · push_neg at ht
    have hhalf := roundQ_half_ulp q (ne_of_gt hq)
    have h2e : (2:ℚ) ^ expoQ q ≤ q := by
      have h1 := (expoQ_bounds q (ne_of_gt hq)).1
      rwa [abs_of_pos hq] at h1
    have hmle : (m:ℚ) ≤ (2:ℚ) ^ (53:ℤ) - 1 := by
      have h1 : m ≤ 2 ^ 53 - 1 := by
        have := (abs_lt.mp hm).2
        omega
      have h2 : (m:ℚ) ≤ ((2 ^ 53 - 1 : ℤ) : ℚ) := by exact_mod_cast h1
      refine le_trans h2 ?_
      rw [show ((53:ℤ)) = ((53:ℕ):ℤ) by norm_num, zpow_natCast]
      push_cast
      norm_num
    have htpos : (0:ℚ) < (2:ℚ) ^ t := zpow_pos (by norm_num) t
    have hyle : (m:ℚ) * (2:ℚ) ^ t ≤ (2:ℚ) ^ expoQ q - (2:ℚ) ^ (expoQ q - 53) := by
      have hstep : (m:ℚ) * (2:ℚ) ^ t ≤ (2:ℚ) ^ (t + 53) - (2:ℚ) ^ t := by
        calc (m:ℚ) * (2:ℚ) ^ t
            ≤ ((2:ℚ) ^ (53:ℤ) - 1) * (2:ℚ) ^ t := mul_le_mul_of_nonneg_right hmle htpos.le
        _ = (2:ℚ) ^ (t + 53) - (2:ℚ) ^ t := by
            rw [sub_mul, one_mul, ← zpow_add₀ (by norm_num : (2:ℚ) ≠ 0)]
            congr 2
            ring
      by_cases hteq : t = expoQ q - 53
      · subst hteq
        rw [show expoQ q - 53 + 53 = expoQ q by ring] at hstep
        exact hstep
      · have ht2 : t ≤ expoQ q - 54 := by omega
        have h1 : (2:ℚ) ^ (t + 53) ≤ (2:ℚ) ^ (expoQ q - 1) :=
          zpow_le_zpow_right₀ (by norm_num) (by omega)
        have h2 : (2:ℚ) ^ (expoQ q - 53) ≤ (2:ℚ) ^ (expoQ q - 1) :=
          zpow_le_zpow_right₀ (by norm_num) (by omega)
        have h3 : (2:ℚ) ^ (expoQ q - 1) + (2:ℚ) ^ (expoQ q - 1) = (2:ℚ) ^ expoQ q := by
          rw [zpow_two_add_self, show expoQ q - 1 + 1 = expoQ q by ring]
        linarith [htpos]
    have hfinal : (2:ℚ) ^ (expoQ q - 53) ≤ q - (m:ℚ) * (2:ℚ) ^ t := by linarith
    calc |roundQ q - q| ≤ (2:ℚ) ^ (expoQ q - 53) := hhalf
    _ ≤ q - (m:ℚ) * (2:ℚ) ^ t := hfinal
    _ ≤ |(m:ℚ) * (2:ℚ) ^ t - q| := by
        rw [abs_sub_comm]
        exact le_abs_self _

/-- `roundQ` is a nearest rounding: no representable value is closer to
the input than the rounded value. -/
theorem roundQ_nearest (q y : ℚ) (hy : IsRepr y) : |roundQ q - q| ≤ |y - q| := by
  rcases lt_trichotomy q 0 with hq | hq | hq
  · have h := roundQ_nearest_pos (-q) (-y) (neg_pos.mpr hq) (isRepr_neg hy)
    rw [roundQ_neg_eq] at h
    calc |roundQ q - q| = |-roundQ q - -q| := by
          rw [← abs_neg (roundQ q - q)]
          congr 1
          ring
    _ ≤ |-y - -q| := h
    _ = |y - q| := by
        rw [← abs_neg (y - q)]
        congr 1
        ring
  · rw [hq, roundQ_zero]
    simp
  · exact roundQ_nearest_pos q y hq hy

/-- Representable values round to themselves. -/
theorem roundQ_eq_self {q : ℚ} (h : IsRepr q) : roundQ q = q := by
  have h1 := roundQ_nearest q q h
  rw [sub_self, abs_zero] at h1
  exact sub_eq_zero.mp (abs_eq_zero.mp (le_antisymm h1 (abs_nonneg _)))

/-- `roundQ` preserves every power-of-two grid its input lies on. -/
theorem roundQ_multOf {g : ℤ} {q : ℚ} (hm : MultOf g q) : MultOf g (roundQ q) := by
  by_cases hq : q = 0
  · rw [hq, roundQ_zero]
    exact multOf_zero g
  by_cases hcase : g ≤ expoQ q - 52
  · exact multOf_mono hcase (roundQ_grid q hq)
  · push_neg at hcase
    have hb : |q| ≤ (2:ℚ) ^ (g + 53) := by
      refine le_of_lt (lt_of_lt_of_le (expoQ_bounds q hq).2 ?_)
      exact zpow_le_zpow_right₀ (by norm_num) (by omega)
    rw [roundQ_eq_self (isRepr_of_multOf hm hb)]
    exact hm

/-- Rounding cannot drop below any representable magnitude bound. -/
theorem abs_le_roundQ_abs (S y : ℚ) (hy : IsRepr y) (h : |y| ≤ |S|) :
    |y| ≤ |roundQ S| := by
  by_cases hS : S = 0
  · rw [hS, roundQ_zero]
    rw [hS, abs_zero] at h
    exact h
  have hy2 : IsRepr (if 0 ≤ S then |y| else -|y|) := by
    split
    · exact isRepr_abs hy
    · exact isRepr_neg (isRepr_abs hy)
  have hdist : |(if 0 ≤ S then |y| else -|y|) - S| = |S| - |y| := by
    split
    · next hs =>
      rw [abs_of_nonneg hs] at h
      rw [abs_of_nonpos (by linarith), abs_of_nonneg hs]
      ring
    · next hs =>
      push_neg at hs
      rw [abs_of_neg hs] at h
      rw [abs_of_nonneg (by linarith), abs_of_neg hs]
      ring
  have hnear := roundQ_nearest S _ hy2
  rw [hdist] at hnear
  have htri : |S| - |roundQ S| ≤ |roundQ S - S| := by
    have h1 := abs_sub_abs_le_abs_sub S (roundQ S)
    rw [abs_sub_comm] at h1
    exact h1
  linarith

/-- The error of a rounded sum is at most the second operand when the
first is representable. -/
theorem plus_error_le_left (u v : ℚ) (hu : IsRepr u) :
    |(u + v) - roundQ (u + v)| ≤ |v| := by
  have h := roundQ_nearest (u + v) u hu
  rw [abs_sub_comm]
  refine le_trans h ?_
  rw [show u - (u + v) = -v by ring, abs_neg]

/-- The error of a rounded sum is at most the first operand when the
second is representable. -/
theorem plus_error_le_right (u v : ℚ) (hv : IsRepr v) :
    |(u + v) - roundQ (u + v)| ≤ |u| := by
  have h := roundQ_nearest (u + v) v hv
  rw [abs_sub_comm]
  refine le_trans h ?_
  rw [show v - (u + v) = -u by ring, abs_neg]

/-- Sterbenz-style error representability: the rounding error of the
sum of two representable values is itself representable. -/
theorem plus_error_isRepr (u v : ℚ) (hu : IsRepr u) (hv : IsRepr v) :
    IsRepr ((u + v) - roundQ (u + v)) := by
  obtain ⟨mu, gu, hmu, hueq⟩ := hu
  obtain ⟨mv, gv, hmv, hveq⟩ := hv
  have hmu_u : MultOf gu u := ⟨mu, hueq⟩
  have hmv_v : MultOf gv v := ⟨mv, hveq⟩
  have hS : MultOf (min gu gv) (u + v) :=
    multOf_add (multOf_mono (min_le_left _ _) hmu_u) (multOf_mono (min_le_right _ _) hmv_v)
  have hdiff : MultOf (min gu gv) ((u + v) - roundQ (u + v)) :=
    multOf_sub hS (roundQ_multOf hS)
  apply isRepr_of_multOf hdiff
  rcases le_total gu gv with hle | hle
  · rw [min_eq_left hle]
    calc |(u + v) - roundQ (u + v)| ≤ |u| := plus_error_le_right u v ⟨mv, gv, hmv, hveq⟩
    _ ≤ (2:ℚ) ^ (gu + 53) := by
        rw [hueq]
        exact (repr_bound_lt hmu).le
  · rw [min_eq_right hle]
    calc |(u + v) - roundQ (u + v)| ≤ |v| := plus_error_le_left u v ⟨mu, gu, hmu, hueq⟩
    _ ≤ (2:ℚ) ^ (gv + 53) := by
        rw [hveq]
        exact (repr_bound_lt hmv).le

/-- Dekker's lemma in radix 2: when `|v| ≤ |u|`, the rounded sum minus
the larger operand is exactly representable. -/
theorem round_sum_sub_isRepr (u v : ℚ) (hu : IsRepr u) (hv : IsRepr v)
    (hvu : |v| ≤ |u|) : IsRepr (roundQ (u + v) - u) := by
  obtain ⟨mu, gu, hmu, hueq⟩ := hu
  obtain ⟨mv, gv, hmv, hveq⟩ := hv
  have hmu_u : MultOf gu u := ⟨mu, hueq⟩
  have hmv_v : MultOf gv v := ⟨mv, hveq⟩
  have hS : MultOf (min gu gv) (u + v) :=
    multOf_add (multOf_mono (min_le_left _ _) hmu_u) (multOf_mono (min_le_right _ _) hmv_v)
  by_cases hS0 : u + v = 0
  · rw [hS0, roundQ_zero, zero_sub]
    exact isRepr_neg ⟨mu, gu, hmu, hueq⟩
  by_cases hsmall : expoQ (u + v) ≤ min gu gv + 52
  · have hrepr : IsRepr (u + v) := by
      apply isRepr_of_multOf hS
      refine le_of_lt (lt_of_lt_of_le (expoQ_bounds (u + v) hS0).2 ?_)
      exact zpow_le_zpow_right₀ (by norm_num) (by omega)
    rw [roundQ_eq_self hrepr, add_sub_cancel_left]
    exact ⟨mv, gv, hmv, hveq⟩
  · push_neg at hsmall
    have herr : |roundQ (u + v) - (u + v)| ≤ (2:ℚ) ^ (expoQ (u + v) - 53) :=
      roundQ_half_ulp _ hS0
    have hEgu : expoQ (u + v) ≤ gu + 53 := by
      have h1 : (2:ℚ) ^ expoQ (u + v) ≤ |u + v| := (expoQ_bounds _ hS0).1
      have h2 : |u + v| ≤ |u| + |v| := abs_add u v
      have h3 : |u| < (2:ℚ) ^ (gu + 53) := by
        rw [hueq]
        exact repr_bound_lt hmu
      have h4 : (2:ℚ) ^ expoQ (u + v) < (2:ℚ) ^ (gu + 53) + (2:ℚ) ^ (gu + 53) := by
        linarith
      have h5 : (2:ℚ) ^ (gu + 53) + (2:ℚ) ^ (gu + 53) = (2:ℚ) ^ (gu + 54) := by
        rw [zpow_two_add_self, show gu + 53 + 1 = gu + 54 by ring]
      rw [h5] at h4
      have h6 : expoQ (u + v) < gu + 54 :=
        (zpow_lt_zpow_iff_right₀ (by norm_num : (1:ℚ) < 2)).mp h4
      omega
    have hd_le : |roundQ (u + v) - u| ≤ |v| + (2:ℚ) ^ (expoQ (u + v) - 53) := by
      calc |roundQ (u + v) - u| = |v + (roundQ (u + v) - (u + v))| := by
            congr 1
            ring
      _ ≤ |v| + |roundQ (u + v) - (u + v)| := abs_add _ _
      _ ≤ |v| + (2:ℚ) ^ (expoQ (u + v) - 53) := by linarith
    by_cases hgu : gu ≤ expoQ (u + v) - 52
    · have hd : MultOf gu (roundQ (u + v) - u) :=
        multOf_sub (multOf_mono hgu (roundQ_grid _ hS0)) hmu_u
      apply isRepr_of_multOf hd
      have her : (2:ℚ) ^ (expoQ (u + v) - 53) ≤ (2:ℚ) ^ gu :=
        zpow_le_zpow_right₀ (by norm_num) (by omega)
      have hub : |u| ≤ ((2:ℚ) ^ (53:ℤ) - 1) * (2:ℚ) ^ gu := by
        rw [hueq]
        exact repr_bound hmu
      calc |roundQ (u + v) - u| ≤ |v| + (2:ℚ) ^ (expoQ (u + v) - 53) := hd_le
      _ ≤ ((2:ℚ) ^ (53:ℤ) - 1) * (2:ℚ) ^ gu + (2:ℚ) ^ gu := by linarith
      _ = (2:ℚ) ^ (53:ℤ) * (2:ℚ) ^ gu := by ring
      _ = (2:ℚ) ^ (gu + 53) := by
          rw [← zpow_add₀ (by norm_num : (2:ℚ) ≠ 0)]
          congr 1
          ring
    · push_neg at hgu
      have hkgv : gv ≤ expoQ (u + v) - 53 := by
        rcases le_total gu gv with h1 | h1
        · rw [min_eq_left h1] at hsmall
          omega
        · rw [min_eq_right h1] at hsmall
          omega
      have hd : MultOf (expoQ (u + v) - 52) (roundQ (u + v) - u) :=
        multOf_sub (roundQ_grid _ hS0) (multOf_mono (by omega) hmu_u)
      apply isRepr_of_multOf hd
      have hvb : |v| ≤ (2:ℚ) ^ expoQ (u + v) - (2:ℚ) ^ (expoQ (u + v) - 53) := by
        have h1 : |v| ≤ ((2:ℚ) ^ (53:ℤ) - 1) * (2:ℚ) ^ gv := by
          rw [hveq]
          exact repr_bound hmv
        have h2 : (2:ℚ) ^ gv ≤ (2:ℚ) ^ (expoQ (u + v) - 53) :=
          zpow_le_zpow_right₀ (by norm_num) hkgv
        have h3 : (0:ℚ) ≤ (2:ℚ) ^ (53:ℤ) - 1 := by
          have h4 : (1:ℚ) ≤ (2:ℚ) ^ (53:ℤ) := one_le_zpow₀ (by norm_num) (by norm_num)
          linarith
        calc |v| ≤ ((2:ℚ) ^ (53:ℤ) - 1) * (2:ℚ) ^ gv := h1
        _ ≤ ((2:ℚ) ^ (53:ℤ) - 1) * (2:ℚ) ^ (expoQ (u + v) - 53) :=
            mul_le_mul_of_nonneg_left h2 h3
        _ = (2:ℚ) ^ expoQ (u + v) - (2:ℚ) ^ (expoQ (u + v) - 53) := by
            rw [sub_mul, one_mul, ← zpow_add₀ (by norm_num : (2:ℚ) ≠ 0)]
            congr 2
            ring
      calc |roundQ (u + v) - u| ≤ |v| + (2:ℚ) ^ (expoQ (u + v) - 53) := hd_le
      _ ≤ (2:ℚ) ^ expoQ (u + v) := by linarith
      _ ≤ (2:ℚ) ^ ((expoQ (u + v) - 52) + 53) :=
          zpow_le_zpow_right₀ (by norm_num) (by omega)

/-- A sum no larger in magnitude than either operand is exactly
representable. -/
theorem small_sum_isRepr (u v : ℚ) (hu : IsRepr u) (hv : IsRepr v)
    (h1 : |u + v| ≤ |u|) (h2 : |u + v| ≤ |v|) : IsRepr (u + v) := by
  obtain ⟨mu, gu, hmu, hueq⟩ := hu
  obtain ⟨mv, gv, hmv, hveq⟩ := hv
  have hS : MultOf (min gu gv) (u + v) :=
    multOf_add (multOf_mono (min_le_left _ _) ⟨mu, hueq⟩)
      (multOf_mono (min_le_right _ _) ⟨mv, hveq⟩)
  apply isRepr_of_multOf hS
  rcases le_total gu gv with hle | hle
  · rw [min_eq_left hle]
    calc |u + v| ≤ |u| := h1
    _ ≤ (2:ℚ) ^ (gu + 53) := by
        rw [hueq]
        exact (repr_bound_lt hmu).le
  · rw [min_eq_right hle]
    calc |u + v| ≤ |v| := h2
    _ ≤ (2:ℚ) ^ (gv + 53) := by
        rw [hveq]
        exact (repr_bound_lt hmv).le
/-- Exactness of the TwoSum correction sequence (Knuth): for
representable operands the value returned by `PlusTail` on the rounded
sum is exactly the rounding error of that sum.  The proof follows the
classical case analysis: when `|b| ≤ |a|` the first virtual subtraction
is exact by Dekker's lemma; when `|a| < |b|` either `|a| ≤ |x|` and
Dekker's lemma applies to `(x, -a)` and to `(b, -(a+b-x))`, or the sum
cancelled below both operands and was computed exactly. -/
theorem plusTail_exact (a b : ℚ) (ha : IsRepr a) (hb : IsRepr b) :
    plusTail a b (fadd a b) = (a + b) - fadd a b := by
  simp only [plusTail, fadd, fsub, qadd_eq, qsub_eq]
  set s := roundQ (a + b) with hs
  have herr_repr : IsRepr ((a + b) - s) := plus_error_isRepr a b ha hb
  have herr_le_b : |(a + b) - s| ≤ |b| := plus_error_le_left a b ha
  rcases le_or_lt (|b|) (|a|) with hba | hab
  · have hbv_repr : IsRepr (s - a) := round_sum_sub_isRepr a b ha hb hba
    rw [roundQ_eq_self hbv_repr]
    rw [show s - (s - a) = a by ring, roundQ_eq_self ha]
    rw [show b - (s - a) = (a + b) - s by ring, roundQ_eq_self herr_repr]
    rw [show a - a = (0:ℚ) by ring, roundQ_zero]
    rw [show (0:ℚ) + ((a + b) - s) = (a + b) - s by ring, roundQ_eq_self herr_repr]
  · rcases le_or_lt (|a|) (|s|) with has | hsa
    · have hs_repr : IsRepr s := by
        rw [hs]
        exact roundQ_isRepr (a + b)
      have hbvs_repr : IsRepr (roundQ (s - a) - s) := by
        have h := round_sum_sub_isRepr s (-a) hs_repr (isRepr_neg ha) (by rwa [abs_neg])
        rwa [show s + -a = s - a by ring] at h
      have hav_repr : IsRepr (s - roundQ (s - a)) := by
        have h := isRepr_neg hbvs_repr
        rwa [neg_sub] at h
      have hbvb_repr : IsRepr (roundQ (s - a) - b) := by
        have h := round_sum_sub_isRepr b (-((a + b) - s)) hb (isRepr_neg herr_repr)
          (by rw [abs_neg]; exact herr_le_b)
        rwa [show b + -((a + b) - s) = s - a by ring] at h
      have hbr_repr : IsRepr (b - roundQ (s - a)) := by
        have h := isRepr_neg hbvb_repr
        rwa [neg_sub] at h
      have herr2_repr : IsRepr ((s - a) - roundQ (s - a)) := by
        have h := plus_error_isRepr s (-a) hs_repr (isRepr_neg ha)
        rwa [show s + -a = s - a by ring] at h
      rw [roundQ_eq_self hav_repr]
      rw [show a - (s - roundQ (s - a)) = -((s - a) - roundQ (s - a)) by ring,
        roundQ_eq_self (isRepr_neg herr2_repr)]
      rw [roundQ_eq_self hbr_repr]
      rw [show -((s - a) - roundQ (s - a)) + (b - roundQ (s - a)) = (a + b) - s by ring,
        roundQ_eq_self herr_repr]
    · have hSa : |a + b| < |a| := by
        by_contra hcon
        push_neg at hcon
        have h := abs_le_roundQ_abs (a + b) a ha hcon
        rw [← hs] at h
        exact absurd h (not_le.mpr hsa)
      have hSb : |a + b| < |b| := lt_trans hSa hab
      have hS_repr : IsRepr (a + b) := small_sum_isRepr a b ha hb hSa.le hSb.le
      have hs_eq : s = a + b := by
        rw [hs]
        exact roundQ_eq_self hS_repr
      rw [hs_eq]
      rw [show a + b - a = b by ring, roundQ_eq_self hb]
      rw [show a + b - b = a by ring, roundQ_eq_self ha]
      rw [show b - b = (0:ℚ) by ring, show a - a = (0:ℚ) by ring, roundQ_zero]
      rw [zero_add, roundQ_zero]
      ring

/-- Value represented by `MakeExpansion`: zero suppression does not
change the represented sum. -/
theorem expValue_makeExpansion (v t : ℚ) : expValue (makeExpansion v t) = t + v := by
  rw [makeExpansion]
  by_cases h1 : t = 0
  · by_cases h2 : v = 0
    · rw [if_pos h1, if_pos h2]
      simp [expValue, h1, h2]
    · rw [if_pos h1, if_neg h2]
      simp [expValue, qadd_eq, h1]
  · by_cases h2 : v = 0
    · rw [if_neg h1, if_pos h2]
      simp [expValue, qadd_eq, h2]
    · rw [if_neg h1, if_neg h2]
      simp [expValue, qadd_eq]
/-- C8: for all representable binary64 operands `a` and `b`,
`PlusTail(a, b, x)` applied to the rounded sum `x = a + b` returns a
tail with `a + b = x + tail` exactly, for any ordering of the operands;
equivalently, the at-most-2-component expansion built by
`ExpansionBase::Plus(a, b)` represents exactly the real value `a + b`. -/
theorem c8_plusTail_eft (a b : ℚ) (ha : IsRepr a) (hb : IsRepr b) :
    a + b = fadd a b + plusTail a b (fadd a b) ∧
    expValue (plusE a b) = a + b := by
  have ht := plusTail_exact a b ha hb
  constructor
  · rw [ht]
    ring
  · simp only [plusE]
    rw [expValue_makeExpansion, ht]
    ring

/-- Witness for C8 at `a = 3`, `b = 3 · 2^(-55)`: the exact sum needs 55
significand bits, so the rounded sum genuinely drops a nonzero tail. -/
theorem c8_plusTail_eft_witness :
    IsRepr (3:ℚ) ∧ IsRepr (qmk 3 (zpow2 55)) ∧
    ((3:ℚ) + qmk 3 (zpow2 55) = fadd 3 (qmk 3 (zpow2 55)) +
        plusTail 3 (qmk 3 (zpow2 55)) (fadd 3 (qmk 3 (zpow2 55))) ∧
      expValue (plusE 3 (qmk 3 (zpow2 55))) = 3 + qmk 3 (zpow2 55)) := by
  have h1 : IsRepr (3:ℚ) := ⟨3, 0, by norm_num, by norm_num⟩
  have h2 : IsRepr (qmk 3 (zpow2 55)) := ⟨3, -55, by norm_num, by
    rw [qmk_eq, zpow2, zpow_neg, show ((55:ℤ)) = ((55:ℕ):ℤ) by norm_num, zpow_natCast]
    push_cast
    norm_num⟩
  exact ⟨h1, h2, c8_plusTail_eft 3 (qmk 3 (zpow2 55)) h1 h2⟩
